import Mathlib

/-!
# crypto-utils: AES-256-GCM text and file encryption

A shallow embedding of the Go packages `encrypt` and `decrypt`
(`src/encrypt/{aes,helper}.go`, `src/decrypt/{aes,helper}.go`).

* Go `[]byte` and `string` are both byte sequences: `Bytes := List Byte`.
* Go's `(value, error)` returns and run-time panics are the three outcomes of
  `Res`; every function runs in the state-passing monad `Go` over a `World`
  (file system, entropy of `crypto/rand`, and a log of the calls made).
* The standard library pieces the packages call (`encoding/base64`,
  `crypto/aes`, `crypto/cipher`, `io.ReadFull`, `os.ReadFile`, `os.WriteFile`)
  are modelled after their documented behaviour.  The AES/GHASH arithmetic
  itself is a parameter (`GCMCore`): a key stream and a 16-byte tag function.
* The file system maps a path to its bytes: a file that was written can be
  read back, and writing fails exactly on the paths marked unwritable.
-/

set_option linter.dupNamespace false

namespace CryptoUtils

/-! ## Bytes -/

abbrev Byte := Fin 256

abbrev Bytes := List Byte

/-- The byte with value `n mod 256` (Go's `byte(n)` conversion). -/
def byte (n : Nat) : Byte := ⟨n % 256, Nat.mod_lt _ (by decide)⟩

/-- The bytes of an ASCII string literal. -/
def ascii (s : String) : Bytes := s.toList.map (fun c => byte c.toNat)

/-- Bytewise exclusive or of a message with a key stream. -/
def xorBytes : Bytes → Bytes → Bytes
  | a :: as, b :: bs => (a ^^^ b) :: xorBytes as bs
  | _, _ => []

/-! ## Errors, outcomes, the world -/

deriving instance DecidableEq for Except

/-- Go `error` values: the standard library's errors, `errors.New` and
`errors.Wrap` of `github.com/pkg/errors`. -/
inductive GoError where
  /-- Error `aes.KeySizeError(n)`: "crypto/aes: invalid key size n". -/
  | KeySizeError (n : Nat)
  /-- Error of `cipher.NewGCMWithNonceSize` for a nonce size `<= 0`:
  "cipher: the nonce can't have zero length". -/
  | gcmZeroNonce
  /-- Error of `AEAD.Open`: "cipher: message authentication failed". -/
  | errOpen
  /-- Error `base64.CorruptInputError(offset)`: "illegal base64 data at input byte offset". -/
  | CorruptInputError (offset : Nat)
  /-- Error `io.ErrUnexpectedEOF` / `io.EOF` of `io.ReadFull`. -/
  | randReadError
  /-- Error `*fs.PathError` of `os.ReadFile` / `os.WriteFile`. -/
  | PathError (op path : String)
  /-- Result of `errors.New(msg)`. -/
  | new (msg : String)
  /-- Result of `errors.Wrap(cause, msg)`. -/
  | wrap (cause : GoError) (msg : String)
  deriving DecidableEq, Repr

/-- The innermost error of a wrap chain (`errors.Cause`). -/
def GoError.cause : GoError → GoError
  | .wrap e _ => e.cause
  | e => e

/-- Outcome of a Go call: a value, a returned `error`, or a run-time panic. -/
inductive Res (α : Type) where
  | ok (a : α)
  | err (e : GoError)
  | panic (msg : String)
  deriving DecidableEq, Repr

/-- The root cause of a returned error, if the call returned one. -/
def Res.errCause {α : Type} : Res α → Option GoError
  | .err e => some e.cause
  | _ => none

/-- Whether the call ended in a run-time panic. -/
def Res.isPanic {α : Type} : Res α → Bool
  | .panic _ => true
  | _ => false

/-- Calls recorded in the log, in program order: the key check of the two
packages and the calls into `crypto/aes`, `crypto/cipher`, `crypto/rand` and `os`. -/
inductive Event where
  | validateKey (key : Bytes)
  | newCipher (key : Bytes)
  | newGCM (nonceSize : Nat)
  | seal (nonce plaintext : Bytes)
  | gcmOpen (nonce ciphertext : Bytes)
  | randRead (n : Nat)
  | readFile (path : String)
  | writeFile (path : String) (data : Bytes) (perm : Nat)
  deriving DecidableEq, Repr

/-- The state a call runs in: the files (path to content, first match wins),
the paths that cannot be written, the bytes `crypto/rand` will deliver, and
the log of calls made so far (oldest first). -/
structure World where
  files : List (String × Bytes)
  unwritable : List String
  rand : Bytes
  trace : List Event
  deriving DecidableEq, Repr

/-- A Go computation: state passing over `World`; the state survives errors
and panics. -/
def Go (α : Type) : Type := World → Res α × World

/-- Return a value. -/
def Go.pure {α : Type} (a : α) : Go α := fun w => (.ok a, w)

/-- Sequencing: an error or a panic of the first computation ends the run. -/
def Go.bind {α β : Type} (m : Go α) (f : α → Go β) : Go β := fun w =>
  match m w with
  | (.ok a, w1) => f a w1
  | (.err e, w1) => (.err e, w1)
  | (.panic p, w1) => (.panic p, w1)

instance : Monad Go where
  pure := Go.pure
  bind := Go.bind

/-- Return the error `e`. -/
def Go.fail {α : Type} (e : GoError) : Go α := fun w => (.err e, w)

/-- A run-time panic. -/
def Go.panic {α : Type} (msg : String) : Go α := fun w => (.panic msg, w)

/-- Append an event to the log. -/
def Go.log (ev : Event) : Go Unit := fun w => (.ok (), { w with trace := w.trace ++ [ev] })

/-- Lift a pure library result into a computation. -/
def Go.ofExcept {α : Type} : Except GoError α → Go α
  | .ok a => Go.pure a
  | .error e => Go.fail e

/-- The pattern `if err != nil { return nil, errors.Wrap(err, msg) }`. -/
def Go.wrapErr {α : Type} (m : Go α) (msg : String) : Go α := fun w =>
  match m w with
  | (.err e, w1) => (.err (.wrap e msg), w1)
  | r => r

/-! ## encoding/base64, `StdEncoding` -/

/-- The alphabet of `base64.StdEncoding`. -/
def encodeStd : Bytes :=
  ascii "ABCDEFGHIJKLMNOPQRSTUVWXYZabcdefghijklmnopqrstuvwxyz0123456789+/"

/-- The padding character `=` of `base64.StdEncoding`. -/
def padChar : Byte := 61

/-- The character of a 6-bit value (`enc.encode[v & 0x3F]`). -/
def encodeChar (v : Nat) : Byte := encodeStd.getD (v % 64) 0

/-- The table `enc.decodeMap`: the 6-bit value of an alphabet character,
`none` (Go: `0xFF`) for every other byte. -/
def decodeMap (c : Byte) : Option Nat :=
  let i := encodeStd.indexOf c
  if i < 64 then some i else none

/-- Function `StdEncoding.EncodeToString`: three bytes become four characters; a
final group of one or two bytes is padded with `==` or `=`. -/
def EncodeToString : Bytes → Bytes
  | [] => []
  | [a] =>
    [encodeChar (a.val / 4), encodeChar (a.val % 4 * 16), padChar, padChar]
  | [a, b] =>
    [encodeChar (a.val / 4), encodeChar (a.val % 4 * 16 + b.val / 16),
     encodeChar (b.val % 16 * 4), padChar]
  | a :: b :: c :: rest =>
    encodeChar (a.val / 4) :: encodeChar (a.val % 4 * 16 + b.val / 16) ::
    encodeChar (b.val % 16 * 4 + c.val / 64) :: encodeChar (c.val % 64) ::
    EncodeToString rest

/-- Whether the byte is `\n` or `\r`, which the decoder skips. -/
def isNewline (c : Byte) : Bool := c.val = 10 || c.val = 13

/-- The bytes of a quantum: `val = d0<<18 | d1<<12 | d2<<6 | d3`, of which the
first `dlen - 1` bytes `val>>16, val>>8, val` are kept (non-strict decoding:
the unused low bits are not checked). -/
def quantumBytes (dbuf : List Nat) : Bytes :=
  let val := dbuf.getD 0 0 * 262144 + dbuf.getD 1 0 * 4096 + dbuf.getD 2 0 * 64 + dbuf.getD 3 0
  [byte (val / 65536), byte (val / 256), byte val].take (dbuf.length - 1)

/-- After the padding of the last quantum: newlines are skipped, anything
else is trailing garbage (`CorruptInputError(si)`). -/
def decodeTail : Bytes → Nat → Option GoError
  | [], _ => none
  | c :: rest, si => if isNewline c then decodeTail rest (si + 1) else some (.CorruptInputError si)

/-- After the first `=` of a two-character quantum: newlines are skipped, a
second `=` is required, then the tail is checked.  `len` is `len(src)`. -/
def decodePad2 : Bytes → Nat → Nat → Option GoError
  | [], _, len => some (.CorruptInputError len)
  | c :: rest, si, len =>
    if isNewline c then decodePad2 rest (si + 1) len
    else if c = padChar then decodeTail rest (si + 1)
    else some (.CorruptInputError (si - 1))

/-- The loop of `Encoding.Decode` over `decodeQuantum` (the 8- and
4-character fast paths agree with it): `src` is the input still to read, `si`
its offset, `dbuf` the 6-bit values of the current quantum (`j` of them), `dst`
the bytes decoded so far.  Returns the decoded bytes or the error. -/
def decodeLoop : Bytes → Nat → Nat → List Nat → Bytes → Except GoError Bytes
  | [], si, _, dbuf, dst =>
    if dbuf.length = 0 then .ok dst else .error (.CorruptInputError (si - dbuf.length))
  | c :: rest, si, len, dbuf, dst =>
    match decodeMap c with
    | some out =>
      if dbuf.length = 3 then decodeLoop rest (si + 1) len [] (dst ++ quantumBytes (dbuf ++ [out]))
      else decodeLoop rest (si + 1) len (dbuf ++ [out]) dst
    | none =>
      if isNewline c then decodeLoop rest (si + 1) len dbuf dst
      else if c ≠ padChar then .error (.CorruptInputError si)
      else if dbuf.length < 2 then .error (.CorruptInputError si)
      else if dbuf.length = 2 then
        match decodePad2 rest (si + 1) len with
        | some e => .error e
        | none => .ok (dst ++ quantumBytes dbuf)
      else
        match decodeTail rest (si + 1) with
        | some e => .error e
        | none => .ok (dst ++ quantumBytes dbuf)

/-- Function `StdEncoding.DecodeString`. -/
def DecodeString (s : Bytes) : Except GoError Bytes := decodeLoop s 0 s.length [] []

/-! ## crypto/aes and crypto/cipher (GCM) -/

/-- The arithmetic of AES-GCM, kept abstract: the CTR key stream of a key and
nonce, and the 16-byte tag (GHASH of the ciphertext, masked) of a key, nonce
and ciphertext. -/
structure GCMCore where
  stream : Bytes → Bytes → Nat → Bytes
  stream_length : ∀ key nonce n, (stream key nonce n).length = n
  tag : Bytes → Bytes → Bytes → Bytes
  tag_length : ∀ key nonce ct, (tag key nonce ct).length = 16

/-- A `cipher.Block` made by `aes.NewCipher`. -/
structure Block where
  key : Bytes
  deriving DecidableEq, Repr

/-- A `cipher.AEAD` made by `cipher.NewGCMWithNonceSize` (tag size 16). -/
structure AEAD where
  key : Bytes
  nonceSize : Nat
  deriving DecidableEq, Repr

/-- The tag size of GCM, `gcmTagSize`. -/
def gcmTagSize : Nat := 16

/-- The longest plaintext `Seal` accepts: `((1<<32)-2) * BlockSize` bytes. -/
def gcmMaxPlaintext : Nat := (2 ^ 32 - 2) * 16

/-- Function `aes.NewCipher`: keys of 16, 24 or 32 bytes, else `KeySizeError`. -/
def aes.NewCipher (key : Bytes) : Go Block := do
  Go.log (.newCipher key)
  if key.length = 16 ∨ key.length = 24 ∨ key.length = 32 then pure ⟨key⟩
  else Go.fail (.KeySizeError key.length)

/-- Function `cipher.NewGCMWithNonceSize`: a nonce size `<= 0` is an error. -/
def cipher.NewGCMWithNonceSize (cipherKey : Block) (size : Nat) : Go AEAD := do
  Go.log (.newGCM size)
  if size = 0 then Go.fail .gcmZeroNonce else pure ⟨cipherKey.key, size⟩

/-- The bytes `Seal` produces: the plaintext xored with the key stream,
followed by the tag of that ciphertext. -/
def GCMCore.seal (G : GCMCore) (key nonce plaintext : Bytes) : Bytes :=
  let ct := xorBytes plaintext (G.stream key nonce plaintext.length)
  ct ++ G.tag key nonce ct

/-- The check and decryption of `Open` on an input of at least tag size: the last
16 bytes are the tag, compared with the expected tag of the rest. -/
def GCMCore.unseal (G : GCMCore) (key nonce ciphertext : Bytes) : Option Bytes :=
  let tag := ciphertext.drop (ciphertext.length - gcmTagSize)
  let ct := ciphertext.take (ciphertext.length - gcmTagSize)
  if G.tag key nonce ct ≠ tag then none
  else some (xorBytes ct (G.stream key nonce ct.length))

/-- Method `gcm.Seal(nil, nonce, plaintext, nil)`: panics on a nonce of the wrong
length and on a plaintext over the GCM limit; returns the ciphertext followed
by the tag. -/
def AEAD.Seal (G : GCMCore) (gcm : AEAD) (nonce plaintext : Bytes) : Go Bytes := do
  Go.log (.seal nonce plaintext)
  if nonce.length ≠ gcm.nonceSize then
    Go.panic "crypto/cipher: incorrect nonce length given to GCM"
  else if plaintext.length > gcmMaxPlaintext then
    Go.panic "crypto/cipher: message too large for GCM"
  else pure (G.seal gcm.key nonce plaintext)

/-- Method `gcm.Open(nil, nonce, ciphertext, nil)`: panics on a nonce of the wrong
length; `errOpen` when the input is shorter than a tag, over the limit, or
its tag is not the expected one; else the plaintext. -/
def AEAD.Open (G : GCMCore) (gcm : AEAD) (nonce ciphertext : Bytes) : Go Bytes := do
  Go.log (.gcmOpen nonce ciphertext)
  if nonce.length ≠ gcm.nonceSize then
    Go.panic "crypto/cipher: incorrect nonce length given to GCM"
  else if ciphertext.length < gcmTagSize then Go.fail .errOpen
  else if ciphertext.length > gcmMaxPlaintext + gcmTagSize then Go.fail .errOpen
  else
    match G.unseal gcm.key nonce ciphertext with
    | none => Go.fail .errOpen
    | some plaintext => pure plaintext

/-! ## crypto/rand, os -/

/-- Call `io.ReadFull(rand.Reader, buf)` for a buffer of `n` bytes: the next `n`
bytes of entropy, or an error when the source runs dry. -/
def rand.ReadFull (n : Nat) : Go Bytes := fun w =>
  if n ≤ w.rand.length then
    (.ok (w.rand.take n), { w with rand := w.rand.drop n, trace := w.trace ++ [.randRead n] })
  else (.err .randReadError, { w with rand := [], trace := w.trace ++ [.randRead n] })

/-- Function `os.ReadFile`: the content of the file, or a `PathError`. -/
def os.ReadFile (path : String) : Go Bytes := fun w =>
  match w.files.lookup path with
  | some data => (.ok data, { w with trace := w.trace ++ [.readFile path] })
  | none => (.err (.PathError "open" path), { w with trace := w.trace ++ [.readFile path] })

/-- Function `os.WriteFile`: replaces the content of the file, or a `PathError`
when the path cannot be written. -/
def os.WriteFile (path : String) (data : Bytes) (perm : Nat) : Go Unit := fun w =>
  if path ∈ w.unwritable then
    (.err (.PathError "open" path), { w with trace := w.trace ++ [.writeFile path data perm] })
  else
    (.ok (), { w with files := (path, data) :: w.files,
                      trace := w.trace ++ [.writeFile path data perm] })

/-- Slice expression `s[:n]`, bounds-checked. -/
def sliceTo (s : Bytes) (n : Nat) : Go Bytes :=
  if n ≤ s.length then pure (s.take n) else Go.panic "runtime error: slice bounds out of range"

/-- Slice expression `s[n:]`, bounds-checked. -/
def sliceFrom (s : Bytes) (n : Nat) : Go Bytes :=
  if n ≤ s.length then pure (s.drop n) else Go.panic "runtime error: slice bounds out of range"

/-! ## Package constants -/

/-- Modelled from the spec: the constant `AES_KEY_LENGTH` is declared outside
`src/`; "key length = 32 bytes". -/
def AES_KEY_LENGTH : Nat := 32

/-- Modelled from the spec: the constant `GCM_STANDARD_NONCE_SIZE` is declared
outside `src/`; "standard nonce size = 12 bytes (GCM default)". -/
def GCM_STANDARD_NONCE_SIZE : Nat := 12

/-- Modelled from the spec: the constant `FILE_PERMISSION` is declared outside
`src/`; "fixed restrictive mode (owner read/write only recommended)". -/
def FILE_PERMISSION : Nat := 0o600

/-! ## Package encrypt -/

namespace encrypt

/-- Method `newAEAD` of `src/encrypt/helper.go`. -/
def newAEAD (key nonce : Bytes) : Go AEAD := do
  let cipherKey ← (aes.NewCipher key).wrapErr "create cipher key error"
  cipher.NewGCMWithNonceSize cipherKey nonce.length

/-- Method `generateNonce`. -/
def generateNonce : Go Bytes := do
  let nonce ← (rand.ReadFull GCM_STANDARD_NONCE_SIZE).wrapErr "generate nonce error"
  pure nonce

/-- Method `validateAES256GCMKey`. -/
def validateAES256GCMKey (key : Bytes) : Go Unit := do
  Go.log (.validateKey key)
  if key.length ≠ AES_KEY_LENGTH then Go.fail (.new "key must be 32 bytes")
  else pure ()

/-- Method `encrypt`. -/
def encrypt (G : GCMCore) (key nonce plaintext : Bytes) : Go Bytes := do
  let gcm ← (newAEAD key nonce).wrapErr "create AES256GCM error"
  let ciphertext ← gcm.Seal G nonce plaintext
  pure ciphertext

/-- Method `encryptAES256GCM`. -/
def encryptAES256GCM (G : GCMCore) (key nonce plaintext : Bytes) (buildNonce : Bool) :
    Go Bytes := do
  (validateAES256GCMKey key).wrapErr "validate AES256GCM key error"
  let nonceByte ← (if buildNonce then generateNonce else pure nonce)
  let ciphertext ← encrypt G key nonceByte plaintext
  let ciphertext := if buildNonce then nonceByte ++ ciphertext else ciphertext
  pure ciphertext

/-- Method `encryptFile`. -/
def encryptFile (G : GCMCore) (key nonce : Bytes) (inputFilePath outputFilePath : String)
    (buildNonce : Bool) : Go Unit := do
  let data ← (os.ReadFile inputFilePath).wrapErr "read source file error"
  let nonceByte ← (if buildNonce then generateNonce else pure nonce)
  let ciphertext ← encrypt G key nonceByte data
  let ciphertext := if buildNonce then nonceByte ++ ciphertext else ciphertext
  (os.WriteFile outputFilePath ciphertext FILE_PERMISSION).wrapErr "write encrypt file error"

/-- Method `encryptFileAES256GCM`. -/
def encryptFileAES256GCM (G : GCMCore) (key nonce : Bytes)
    (inputFilePath outputFilePath : String) (buildNonce : Bool) : Go Unit := do
  (validateAES256GCMKey key).wrapErr "validate AES256GCM key error"
  encryptFile G key nonce inputFilePath outputFilePath buildNonce

/-- Method `EncryptWithNonce` of `src/encrypt/aes.go`. -/
def EncryptWithNonce (G : GCMCore) (key nonce data : Bytes) : Go Bytes := do
  let result ← (encryptAES256GCM G key nonce data false).wrapErr "Encrypt AES256GCM error"
  pure (EncodeToString result)

/-- Method `EncryptFileWithNonce`. -/
def EncryptFileWithNonce (G : GCMCore) (key nonce : Bytes)
    (inputFilePath outputFilePath : String) : Go Unit :=
  (encryptFileAES256GCM G key nonce inputFilePath outputFilePath false).wrapErr
    "Encrypt file error"

/-- Method `Encrypt`. -/
def Encrypt (G : GCMCore) (key data : Bytes) : Go Bytes := do
  let result ← encryptAES256GCM G key [] data true
  pure (EncodeToString result)

/-- Method `EncryptFile`. -/
def EncryptFile (G : GCMCore) (key : Bytes) (inputFilePath outputFilePath : String) :
    Go Unit :=
  encryptFileAES256GCM G key [] inputFilePath outputFilePath true

end encrypt

/-! ## Package decrypt -/

namespace decrypt

/-- Method `newAEAD` of `src/decrypt/helper.go`. -/
def newAEAD (key nonce : Bytes) : Go AEAD := do
  let cipherKey ← (aes.NewCipher key).wrapErr "create cipher key error"
  cipher.NewGCMWithNonceSize cipherKey nonce.length

/-- Method `buildNonce`: `ciphertext[:N]` and `ciphertext[N:]`. -/
def buildNonce (ciphertext : Bytes) : Go (Bytes × Bytes) := do
  let nonce ← sliceTo ciphertext GCM_STANDARD_NONCE_SIZE
  let ciphertext ← sliceFrom ciphertext GCM_STANDARD_NONCE_SIZE
  pure (nonce, ciphertext)

/-- Method `validateAES256GCMKey`. -/
def validateAES256GCMKey (key : Bytes) : Go Unit := do
  Go.log (.validateKey key)
  if key.length ≠ AES_KEY_LENGTH then Go.fail (.new "key must be 32 bytes")
  else pure ()

/-- Method `decrypt`. -/
def decrypt (G : GCMCore) (key nonce ciphertext : Bytes) : Go Bytes := do
  let gcm ← (newAEAD key nonce).wrapErr "create AES256GCM error"
  let data ← (gcm.Open G nonce ciphertext).wrapErr "decrypt AES256GCM error"
  pure data

/-- Method `decryptAES256GCM`; its flag `buildNonce` is `doBuild` here, the
method of that name being in scope. -/
def decryptAES256GCM (G : GCMCore) (key nonce ciphertext : Bytes) (doBuild : Bool) :
    Go Bytes := do
  (validateAES256GCMKey key).wrapErr "validate AES256GCM key error"
  let (nonce, ciphertext) ←
    (if doBuild && decide (ciphertext.length > GCM_STANDARD_NONCE_SIZE) then
      buildNonce ciphertext
    else pure (nonce, ciphertext))
  let result ← decrypt G key nonce ciphertext
  pure result

/-- Method `decryptFile`. -/
def decryptFile (G : GCMCore) (key nonce : Bytes) (inputFilePath outputFilePath : String)
    (doBuild : Bool) : Go Unit := do
  let ciphertext ← (os.ReadFile inputFilePath).wrapErr "read source file error"
  let (nonce, ciphertext) ←
    (if doBuild && decide (ciphertext.length > GCM_STANDARD_NONCE_SIZE) then
      buildNonce ciphertext
    else pure (nonce, ciphertext))
  let data ← decrypt G key nonce ciphertext
  (os.WriteFile outputFilePath data FILE_PERMISSION).wrapErr "write decrypt file error"

/-- Method `decryptFileAES256GCM`. -/
def decryptFileAES256GCM (G : GCMCore) (key nonce : Bytes)
    (inputFilePath outputFilePath : String) (doBuild : Bool) : Go Unit := do
  (validateAES256GCMKey key).wrapErr "validate AES256GCM key error"
  decryptFile G key nonce inputFilePath outputFilePath doBuild

/-- Method `DecryptWithNonce` of `src/decrypt/aes.go`. -/
def DecryptWithNonce (G : GCMCore) (key nonce ciphertext : Bytes) : Go Bytes := do
  let decodedCiphertext ←
    (Go.ofExcept (DecodeString ciphertext)).wrapErr "decode ciphertext error"
  let result ←
    (decryptAES256GCM G key nonce decodedCiphertext false).wrapErr "Decrypt AES256GCM error"
  pure result

/-- Method `DecryptFileWithNonce`. -/
def DecryptFileWithNonce (G : GCMCore) (key nonce : Bytes)
    (inputFilePath outputFilePath : String) : Go Unit :=
  (decryptFileAES256GCM G key nonce inputFilePath outputFilePath false).wrapErr
    "Decrypt file error"

/-- Method `Decrypt`. -/
def Decrypt (G : GCMCore) (key nonceCiphertext : Bytes) : Go Bytes := do
  let decodedCiphertext ←
    (Go.ofExcept (DecodeString nonceCiphertext)).wrapErr "decode ciphertext error"
  let result ←
    (decryptAES256GCM G key [] decodedCiphertext true).wrapErr
      "Decrypt AES256GCM with nonce error"
  pure result

/-- Method `DecryptFile`. -/
def DecryptFile (G : GCMCore) (key : Bytes) (inputFilePath outputFilePath : String) :
    Go Unit :=
  (decryptFileAES256GCM G key [] inputFilePath outputFilePath true).wrapErr
    "Decrypt file with nonce error"

end decrypt

/-! ## A concrete core to run the model on -/

/-- Sum of the byte values. -/
def byteSum (bs : Bytes) : Nat := (bs.map (fun b => b.val)).sum

/-- A small stand-in for AES-GCM arithmetic: a key stream and a checksum tag
derived from key, nonce and position. -/
def demoCore : GCMCore where
  stream := fun key nonce n => (List.range n).map (fun i => byte (byteSum key + 7 * byteSum nonce + 13 * i + 1))
  stream_length := by intro key nonce n; simp
  tag := fun key nonce ct =>
    (List.range 16).map (fun i => byte (byteSum key + 3 * byteSum nonce + 5 * byteSum ct + 11 * ct.length + i))
  tag_length := by intro key nonce ct; simp

/-! ## Verdicts -/

/-- The verdict of `gcm.Open` on a ciphertext, as `decrypt` reports it. -/
def openVerdict (G : GCMCore) (key nonce ciphertext : Bytes) : Res Bytes :=
  if ciphertext.length < 16 ∨ gcmMaxPlaintext + 16 < ciphertext.length then
    .err (.wrap .errOpen "decrypt AES256GCM error")
  else match G.unseal key nonce ciphertext with
    | none => .err (.wrap .errOpen "decrypt AES256GCM error")
    | some plaintext => .ok plaintext

/-- How `Decrypt` reports the verdict of `decrypt`. -/
def wrapVerdict : Res Bytes → Res Bytes
  | .err e => .err (.wrap e "Decrypt AES256GCM with nonce error")
  | r => r

/-- Whether the event is a call of `gcm.Open`. -/
def Event.isOpen : Event → Bool
  | .gcmOpen _ _ => true
  | _ => false

/-! ## Sample inputs -/

/-- A 32-byte key. -/
def demoKey : Bytes := List.replicate 32 1

/-- A 12-byte nonce. -/
def demoNonce : Bytes := List.replicate 12 7

/-- A world with two input files (one of them empty), one unwritable path,
24 bytes of entropy and an empty log. -/
def demoWorld : World :=
  { files := [("in.txt", ascii "hello world"), ("empty.txt", [])],
    unwritable := ["ro.txt"],
    rand := List.replicate 12 7 ++ List.replicate 12 9,
    trace := [] }

/-- The text `s` with bit `k` of byte `i` flipped. -/
def flipBit (s : Bytes) (i k : Nat) : Bytes := s.set i (s.getD i 0 ^^^ byte (2 ^ k))

/-- The number of characters the decoder does not skip. -/
def effCount (s : Bytes) : Nat := s.countP (fun c => !isNewline c)

/-- A world whose one file is a byte longer than the GCM plaintext limit. -/
def bigWorld : World :=
  { files := [("big.bin", List.replicate (gcmMaxPlaintext + 1) 0)],
    unwritable := [],
    rand := demoNonce,
    trace := [] }

/-- Whether the byte can occur in a text the decoder accepts: a character
of the alphabet, the padding character, or a line break. -/
def isBase64Byte (c : Byte) : Bool := (decodeMap c).isSome || c == padChar || isNewline c

/-! ## Valid base64, stated without the decoder -/

/-- A character of the standard alphabet: `A`-`Z`, `a`-`z`, `0`-`9`, `+`, `/`. -/
def isAlphabetChar (c : Byte) : Bool :=
  (65 ≤ c.val && c.val ≤ 90) || (97 ≤ c.val && c.val ≤ 122) || (48 ≤ c.val && c.val ≤ 57) ||
    c.val == 43 || c.val == 47

/-- Valid standard-alphabet padded base64: characters of the alphabet only,
followed by no, one or two `=`, the whole a multiple of four characters. -/
def validStdBase64 (t : Bytes) : Bool :=
  t.length % 4 == 0 &&
    (t.dropWhile isAlphabetChar == [] || t.dropWhile isAlphabetChar == [61] ||
      t.dropWhile isAlphabetChar == [61, 61])

/-- The text without its CR and LF characters. -/
def dropNewlines (s : Bytes) : Bytes := s.filter (fun c => !isNewline c)

/-- Whether the text `c1` is a forgery of `c` under `key`: it decodes to a blob
other than the one `c` decodes to, and the tag check of the cipher accepts
that blob split after its first twelve bytes. -/
def forged (G : GCMCore) (key c c1 : Bytes) : Bool :=
  match DecodeString c, DecodeString c1 with
  | .ok blob, .ok blob1 =>
    blob1 != blob && (G.unseal key (blob1.take 12) (blob1.drop 12)).isSome
  | _, _ => false

/-! ## The base64 codec -/

theorem decodeMap_encodeChar (v : Nat) (h : v < 64) : decodeMap (encodeChar v) = some v := by
  have key : ∀ u : Fin 64, decodeMap (encodeChar u.val) = some u.val := by decide
  exact key ⟨v, h⟩

theorem quantumBytes_four (a b c : Byte) :
    quantumBytes [a.val / 4, a.val % 4 * 16 + b.val / 16, b.val % 16 * 4 + c.val / 64, c.val % 64]
      = [a, b, c] := by
  have ha := a.isLt
  have hb := b.isLt
  have hc := c.isLt
  simp only [quantumBytes, List.getD_cons_zero, List.getD_cons_succ, List.length_cons,
    List.length_nil, List.take]
  refine congrArg₂ _ ?_ (congrArg₂ _ ?_ (congrArg₂ _ ?_ rfl)) <;> apply Fin.ext <;>
    simp only [byte] <;> omega

theorem quantumBytes_three (a b : Byte) :
    quantumBytes [a.val / 4, a.val % 4 * 16 + b.val / 16, b.val % 16 * 4] = [a, b] := by
  have ha := a.isLt
  have hb := b.isLt
  simp only [quantumBytes, List.getD_cons_zero, List.getD_cons_succ, List.length_cons,
    List.length_nil, List.take, List.getD_nil]
  refine congrArg₂ _ ?_ (congrArg₂ _ ?_ rfl) <;> apply Fin.ext <;>
    simp only [byte] <;> omega

theorem quantumBytes_two (a : Byte) :
    quantumBytes [a.val / 4, a.val % 4 * 16] = [a] := by
  have ha := a.isLt
  simp only [quantumBytes, List.getD_cons_zero, List.getD_cons_succ, List.length_cons,
    List.length_nil, List.take, List.getD_nil]
  refine congrArg₂ _ ?_ rfl
  apply Fin.ext
  simp only [byte]
  omega

theorem decodeLoop_encode (b : Bytes) : ∀ (si len : Nat) (dst : Bytes),
    decodeLoop (EncodeToString b) si len [] dst = .ok (dst ++ b) := by
  induction b using EncodeToString.induct with
  | case1 => intro si len dst; simp [EncodeToString, decodeLoop]
  | case2 a =>
    intro si len dst
    have h1 := decodeMap_encodeChar (a.val / 4) (by omega)
    have h2 := decodeMap_encodeChar (a.val % 4 * 16) (by omega)
    have hp : decodeMap padChar = none := by decide
    have hn : isNewline padChar = false := by decide
    simp [EncodeToString, decodeLoop, h1, h2, hp, hn, decodePad2, decodeTail, quantumBytes_two]
  | case3 a b =>
    intro si len dst
    have h1 := decodeMap_encodeChar (a.val / 4) (by omega)
    have h2 := decodeMap_encodeChar (a.val % 4 * 16 + b.val / 16) (by omega)
    have h3 := decodeMap_encodeChar (b.val % 16 * 4) (by omega)
    have hp : decodeMap padChar = none := by decide
    have hn : isNewline padChar = false := by decide
    simp [EncodeToString, decodeLoop, h1, h2, h3, hp, hn, decodeTail, quantumBytes_three]
  | case4 a b c rest ih =>
    intro si len dst
    have h1 := decodeMap_encodeChar (a.val / 4) (by omega)
    have h2 := decodeMap_encodeChar (a.val % 4 * 16 + b.val / 16) (by omega)
    have h3 := decodeMap_encodeChar (b.val % 16 * 4 + c.val / 64) (by omega)
    have h4 := decodeMap_encodeChar (c.val % 64) (by omega)
    simp [EncodeToString, decodeLoop, h1, h2, h3, h4, quantumBytes_four, ih]

/-- Base64 decoding inverts encoding. -/
theorem DecodeString_EncodeToString (b : Bytes) : DecodeString (EncodeToString b) = .ok b := by
  simp [DecodeString, decodeLoop_encode]

/-! ## Seal and unseal -/

theorem xorByte_cancel (a b : Byte) : (a ^^^ b) ^^^ b = a := by
  apply Fin.ext
  show ((a.val ^^^ b.val) % 256 ^^^ b.val) % 256 = a.val
  have h : a.val ^^^ b.val < 256 := Nat.xor_lt_two_pow (n := 8) a.isLt b.isLt
  rw [Nat.mod_eq_of_lt h, Nat.xor_assoc, Nat.xor_self, Nat.xor_zero, Nat.mod_eq_of_lt a.isLt]

theorem xorBytes_length : ∀ (p s : Bytes), p.length ≤ s.length → (xorBytes p s).length = p.length
  | [], _, _ => by simp [xorBytes]
  | _ :: _, [], h => by simp at h
  | a :: p, b :: s, h => by
    have := xorBytes_length p s (by simpa using h)
    simp [xorBytes, this]

theorem xorBytes_cancel : ∀ (p s : Bytes), p.length ≤ s.length → xorBytes (xorBytes p s) s = p
  | [], _, _ => by simp [xorBytes]
  | _ :: _, [], h => by simp at h
  | a :: p, b :: s, h => by
    have := xorBytes_cancel p s (by simpa using h)
    simp [xorBytes, this, xorByte_cancel]

theorem seal_length (G : GCMCore) (key nonce plaintext : Bytes) :
    (G.seal key nonce plaintext).length = plaintext.length + 16 := by
  simp [GCMCore.seal, G.tag_length, xorBytes_length, G.stream_length]

/-- Unsealing a sealed message under the same key and nonce gives the message back. -/
theorem unseal_seal (G : GCMCore) (key nonce plaintext : Bytes) :
    G.unseal key nonce (G.seal key nonce plaintext) = some plaintext := by
  have hl : (xorBytes plaintext (G.stream key nonce plaintext.length)).length = plaintext.length :=
    xorBytes_length _ _ (by simp [G.stream_length])
  simp [GCMCore.unseal, GCMCore.seal, gcmTagSize, G.tag_length, hl, xorBytes_cancel,
    G.stream_length]

/-! ## Running the helpers -/

theorem take_ne_nil (l : Bytes) (h : 12 ≤ l.length) : l.take 12 ≠ [] := by
  cases l with
  | nil => simp at h
  | cons a t => simp

theorem wrapErr_apply {α : Type} (m : Go α) (msg : String) (w : World) :
    m.wrapErr msg w = match m w with
      | (.err e, w1) => (.err (.wrap e msg), w1)
      | r => r := rfl

theorem encrypt_run_ok (G : GCMCore) (key nonce plaintext : Bytes)
    (hk : key.length = 32) (hn : nonce ≠ []) (hp : plaintext.length ≤ gcmMaxPlaintext) :
    encrypt.encrypt G key nonce plaintext = fun w =>
      (.ok (G.seal key nonce plaintext),
        { w with trace := w.trace ++
            [.newCipher key, .newGCM nonce.length, .seal nonce plaintext] }) := by
  funext w
  have hp1 : ¬ plaintext.length > gcmMaxPlaintext := by omega
  simp [encrypt.encrypt, encrypt.newAEAD, aes.NewCipher, cipher.NewGCMWithNonceSize, AEAD.Seal,
    Go.wrapErr, Go.log, Go.fail, Go.panic, bind, Go.bind, pure, Go.pure, hk, hn, hp1]

theorem encrypt_run_big (G : GCMCore) (key nonce plaintext : Bytes)
    (hk : key.length = 32) (hn : nonce ≠ []) (hp : plaintext.length > gcmMaxPlaintext) :
    encrypt.encrypt G key nonce plaintext = fun w =>
      (.panic "crypto/cipher: message too large for GCM",
        { w with trace := w.trace ++
            [.newCipher key, .newGCM nonce.length, .seal nonce plaintext] }) := by
  funext w
  simp [encrypt.encrypt, encrypt.newAEAD, aes.NewCipher, cipher.NewGCMWithNonceSize, AEAD.Seal,
    Go.wrapErr, Go.log, Go.fail, Go.panic, bind, Go.bind, pure, Go.pure, hk, hn, hp]

theorem encrypt_run_zero (G : GCMCore) (key plaintext : Bytes) (hk : key.length = 32) :
    encrypt.encrypt G key [] plaintext = fun w =>
      (.err (.wrap .gcmZeroNonce "create AES256GCM error"),
        { w with trace := w.trace ++ [.newCipher key, .newGCM 0] }) := by
  funext w
  simp [encrypt.encrypt, encrypt.newAEAD, aes.NewCipher, cipher.NewGCMWithNonceSize,
    Go.wrapErr, Go.log, Go.fail, bind, Go.bind, pure, Go.pure, hk]

theorem decrypt_run (G : GCMCore) (key nonce ciphertext : Bytes)
    (hk : key.length = 32) (hn : nonce ≠ []) :
    decrypt.decrypt G key nonce ciphertext = fun w =>
      (openVerdict G key nonce ciphertext,
        { w with trace := w.trace ++
            [.newCipher key, .newGCM nonce.length, .gcmOpen nonce ciphertext] }) := by
  funext w
  unfold openVerdict
  by_cases h1 : ciphertext.length < 16
  · simp [decrypt.decrypt, decrypt.newAEAD, aes.NewCipher, cipher.NewGCMWithNonceSize, AEAD.Open,
      Go.wrapErr, Go.log, Go.fail, Go.panic, bind, Go.bind, pure, Go.pure, hk, hn, h1, gcmTagSize]
  · by_cases h2 : gcmMaxPlaintext + 16 < ciphertext.length
    · simp [decrypt.decrypt, decrypt.newAEAD, aes.NewCipher, cipher.NewGCMWithNonceSize,
        AEAD.Open, Go.wrapErr, Go.log, Go.fail, Go.panic, bind, Go.bind, pure, Go.pure, hk, hn,
        h1, h2, gcmTagSize]
    · cases h3 : G.unseal key nonce ciphertext <;>
      simp [decrypt.decrypt, decrypt.newAEAD, aes.NewCipher, cipher.NewGCMWithNonceSize,
        AEAD.Open, Go.wrapErr, Go.log, Go.fail, Go.panic, bind, Go.bind, pure, Go.pure, hk, hn,
        h1, h2, h3, gcmTagSize]

theorem decrypt_run_zero (G : GCMCore) (key ciphertext : Bytes) (hk : key.length = 32) :
    decrypt.decrypt G key [] ciphertext = fun w =>
      (.err (.wrap .gcmZeroNonce "create AES256GCM error"),
        { w with trace := w.trace ++ [.newCipher key, .newGCM 0] }) := by
  funext w
  simp [decrypt.decrypt, decrypt.newAEAD, aes.NewCipher, cipher.NewGCMWithNonceSize,
    Go.wrapErr, Go.log, Go.fail, bind, Go.bind, pure, Go.pure, hk]

theorem openVerdict_seal (G : GCMCore) (key nonce plaintext : Bytes)
    (hp : plaintext.length ≤ gcmMaxPlaintext) :
    openVerdict G key nonce (G.seal key nonce plaintext) = .ok plaintext := by
  have hl := seal_length G key nonce plaintext
  have h1 : ¬ ((G.seal key nonce plaintext).length < 16 ∨
      gcmMaxPlaintext + 16 < (G.seal key nonce plaintext).length) := by omega
  rw [openVerdict, if_neg h1, unseal_seal]

/-- The key check as both packages wrap it. -/
theorem validate_enc_run (key : Bytes) :
    (encrypt.validateAES256GCMKey key).wrapErr "validate AES256GCM key error" = fun w =>
      ((if key.length = 32 then .ok ()
        else .err (.wrap (.new "key must be 32 bytes") "validate AES256GCM key error")),
        { w with trace := w.trace ++ [.validateKey key] }) := by
  funext w
  by_cases hk : key.length = 32 <;>
  simp [encrypt.validateAES256GCMKey, Go.wrapErr, Go.log, Go.fail, bind, Go.bind, pure, Go.pure,
    AES_KEY_LENGTH, hk]

theorem validate_dec_run (key : Bytes) :
    (decrypt.validateAES256GCMKey key).wrapErr "validate AES256GCM key error" = fun w =>
      ((if key.length = 32 then .ok ()
        else .err (.wrap (.new "key must be 32 bytes") "validate AES256GCM key error")),
        { w with trace := w.trace ++ [.validateKey key] }) := by
  funext w
  by_cases hk : key.length = 32 <;>
  simp [decrypt.validateAES256GCMKey, Go.wrapErr, Go.log, Go.fail, bind, Go.bind, pure, Go.pure,
    AES_KEY_LENGTH, hk]

/-! ## Running the text entry points -/

theorem Encrypt_run (G : GCMCore) (key plaintext : Bytes) (w : World)
    (hk : key.length = 32) (hr : 12 ≤ w.rand.length) (hp : plaintext.length ≤ gcmMaxPlaintext) :
    encrypt.Encrypt G key plaintext w =
      (.ok (EncodeToString (w.rand.take 12 ++ G.seal key (w.rand.take 12) plaintext)),
        { w with rand := w.rand.drop 12,
                 trace := w.trace ++ [.validateKey key, .randRead 12, .newCipher key, .newGCM 12,
                   .seal (w.rand.take 12) plaintext] }) := by
  have hn : w.rand.take 12 ≠ [] := take_ne_nil _ hr
  simp [encrypt.Encrypt, encrypt.encryptAES256GCM, ↓validate_enc_run, encrypt.generateNonce,
    rand.ReadFull, wrapErr_apply, bind, Go.bind, pure, Go.pure, GCM_STANDARD_NONCE_SIZE, hr, hk,
    encrypt_run_ok G key _ plaintext hk hn hp]

theorem Encrypt_run_big (G : GCMCore) (key plaintext : Bytes) (w : World)
    (hk : key.length = 32) (hr : 12 ≤ w.rand.length) (hp : plaintext.length > gcmMaxPlaintext) :
    (encrypt.Encrypt G key plaintext w).1 = .panic "crypto/cipher: message too large for GCM" := by
  have hn : w.rand.take 12 ≠ [] := take_ne_nil _ hr
  simp [encrypt.Encrypt, encrypt.encryptAES256GCM, ↓validate_enc_run, encrypt.generateNonce,
    rand.ReadFull, wrapErr_apply, bind, Go.bind, pure, Go.pure, GCM_STANDARD_NONCE_SIZE, hr, hk,
    encrypt_run_big G key _ plaintext hk hn hp]

theorem Encrypt_run_dry (G : GCMCore) (key plaintext : Bytes) (w : World)
    (hk : key.length = 32) (hr : ¬ 12 ≤ w.rand.length) :
    (encrypt.Encrypt G key plaintext w).1 =
      .err (.wrap .randReadError "generate nonce error") := by
  simp [encrypt.Encrypt, encrypt.encryptAES256GCM, ↓validate_enc_run, encrypt.generateNonce,
    rand.ReadFull, wrapErr_apply, bind, Go.bind, pure, Go.pure, GCM_STANDARD_NONCE_SIZE, hr, hk]

/-- What `Decrypt` does with a text that decodes to a blob longer than the nonce size. -/
theorem Decrypt_run_split (G : GCMCore) (key text blob : Bytes) (w : World)
    (hk : key.length = 32) (hd : DecodeString text = .ok blob) (hb : 12 < blob.length) :
    decrypt.Decrypt G key text w =
      (wrapVerdict (openVerdict G key (blob.take 12) (blob.drop 12)),
        { w with trace := w.trace ++ [.validateKey key, .newCipher key, .newGCM 12,
            .gcmOpen (blob.take 12) (blob.drop 12)] }) := by
  have hn : blob.take 12 ≠ [] := take_ne_nil _ (by omega)
  have hb1 : 12 ≤ blob.length := by omega
  have hrun := decrypt_run G key (blob.take 12) (blob.drop 12) hk hn
  cases hv : openVerdict G key (blob.take 12) (blob.drop 12) <;>
  simp [hv, wrapVerdict, decrypt.Decrypt, decrypt.decryptAES256GCM, decrypt.buildNonce, sliceTo,
    sliceFrom, Go.ofExcept, hd, GCM_STANDARD_NONCE_SIZE, bind, Go.bind, wrapErr_apply, Go.pure, pure,
    ↓validate_dec_run, hk, hb, hb1, hrun]

/-- What `Decrypt` does with a text that decodes to a blob of at most the nonce size. -/
theorem Decrypt_run_short (G : GCMCore) (key text blob : Bytes) (w : World)
    (hk : key.length = 32) (hd : DecodeString text = .ok blob) (hb : blob.length ≤ 12) :
    decrypt.Decrypt G key text w =
      (.err (.wrap (.wrap .gcmZeroNonce "create AES256GCM error")
          "Decrypt AES256GCM with nonce error"),
        { w with trace := w.trace ++ [.validateKey key, .newCipher key, .newGCM 0] }) := by
  have hb1 : ¬ 12 < blob.length := by omega
  simp [decrypt.Decrypt, decrypt.decryptAES256GCM, Go.ofExcept, hd, GCM_STANDARD_NONCE_SIZE,
    bind, Go.bind, wrapErr_apply, Go.pure, pure, ↓validate_dec_run, hk, hb1,
    decrypt_run_zero G key blob hk]

theorem Decrypt_run_sealed (G : GCMCore) (key nonce plaintext : Bytes) (w : World)
    (hk : key.length = 32) (hn : nonce.length = 12) (hp : plaintext.length ≤ gcmMaxPlaintext) :
    (decrypt.Decrypt G key (EncodeToString (nonce ++ G.seal key nonce plaintext)) w).1 =
      .ok plaintext := by
  have hl := seal_length G key nonce plaintext
  have hb : 12 < (nonce ++ G.seal key nonce plaintext).length := by simp; omega
  rw [Decrypt_run_split G key _ _ w hk (DecodeString_EncodeToString _) hb]
  have ht : (nonce ++ G.seal key nonce plaintext).take 12 = nonce := by
    rw [← hn]; simp
  have hdp : (nonce ++ G.seal key nonce plaintext).drop 12 = G.seal key nonce plaintext := by
    rw [← hn]; simp
  simp only [ht, hdp, openVerdict_seal G key nonce plaintext hp, wrapVerdict]

/-! ## C1: round trip with a generated nonce -/

/-- C1. For every 32-byte key, every plaintext and every state of the random
source: if `Encrypt(key, plaintext)` returns the text `c`, then `Decrypt(key, c)`,
run in any state, returns exactly `plaintext`. -/
theorem auto_nonce_round_trip (G : GCMCore) (key plaintext c : Bytes) (w w2 : World)
    (hk : key.length = 32) (henc : (encrypt.Encrypt G key plaintext w).1 = .ok c) :
    (decrypt.Decrypt G key c w2).1 = .ok plaintext := by
  by_cases hr : 12 ≤ w.rand.length
  · by_cases hp : plaintext.length ≤ gcmMaxPlaintext
    · rw [Encrypt_run G key plaintext w hk hr hp] at henc
      have hc : EncodeToString (w.rand.take 12 ++ G.seal key (w.rand.take 12) plaintext) = c := by
        simpa using henc
      rw [← hc]
      exact Decrypt_run_sealed G key _ plaintext w2 hk (by simp; omega) hp
    · rw [Encrypt_run_big G key plaintext w hk hr (by omega)] at henc
      cases henc
  · rw [Encrypt_run_dry G key plaintext w hk hr] at henc
    cases henc

/-! ## Running the file entry points -/

theorem lookup_cons_self (path : String) (data : Bytes) (files : List (String × Bytes)) :
    ((path, data) :: files).lookup path = some data := by
  simp [List.lookup]

/-- The one way `EncryptFile` succeeds under a 32-byte key: the input exists,
twelve bytes of entropy are there, the content is within the GCM limit and the
output path can be written; the output then holds nonce and sealed content. -/
theorem EncryptFile_ok (G : GCMCore) (key : Bytes) (inp out : String) (w w1 : World)
    (hk : key.length = 32) (henc : encrypt.EncryptFile G key inp out w = (.ok (), w1)) :
    ∃ d, w.files.lookup inp = some d ∧ 12 ≤ w.rand.length ∧ d.length ≤ gcmMaxPlaintext ∧
      out ∉ w.unwritable ∧
      w1 = { w with
        files := (out, w.rand.take 12 ++ G.seal key (w.rand.take 12) d) :: w.files,
        rand := w.rand.drop 12,
        trace := w.trace ++ [.validateKey key, .readFile inp, .randRead 12, .newCipher key,
          .newGCM 12, .seal (w.rand.take 12) d,
          .writeFile out (w.rand.take 12 ++ G.seal key (w.rand.take 12) d) FILE_PERMISSION] } := by
  cases hin : w.files.lookup inp with
  | none =>
    simp [encrypt.EncryptFile, encrypt.encryptFileAES256GCM, encrypt.encryptFile,
      ↓validate_enc_run, os.ReadFile, wrapErr_apply, bind, Go.bind, hk, hin] at henc
  | some d =>
    by_cases hr : 12 ≤ w.rand.length
    · have hn : w.rand.take 12 ≠ [] := take_ne_nil _ hr
      by_cases hp : d.length ≤ gcmMaxPlaintext
      · by_cases ho : out ∈ w.unwritable
        · simp [encrypt.EncryptFile, encrypt.encryptFileAES256GCM, encrypt.encryptFile,
            ↓validate_enc_run, os.ReadFile, os.WriteFile, encrypt.generateNonce, rand.ReadFull,
            GCM_STANDARD_NONCE_SIZE, wrapErr_apply, bind, Go.bind, pure, Go.pure, hk, hin, hr,
            encrypt_run_ok G key _ d hk hn hp, ho] at henc
        · refine ⟨d, rfl, hr, hp, ho, ?_⟩
          simp [encrypt.EncryptFile, encrypt.encryptFileAES256GCM, encrypt.encryptFile,
            ↓validate_enc_run, os.ReadFile, os.WriteFile, encrypt.generateNonce, rand.ReadFull,
            GCM_STANDARD_NONCE_SIZE, wrapErr_apply, bind, Go.bind, pure, Go.pure, hk, hin, hr,
            encrypt_run_ok G key _ d hk hn hp, ho] at henc
          rw [← henc]
      · simp [encrypt.EncryptFile, encrypt.encryptFileAES256GCM, encrypt.encryptFile,
          ↓validate_enc_run, os.ReadFile, os.WriteFile, encrypt.generateNonce, rand.ReadFull,
          GCM_STANDARD_NONCE_SIZE, wrapErr_apply, bind, Go.bind, pure, Go.pure, hk, hin, hr,
          encrypt_run_big G key _ d hk hn (by omega)] at henc
    · simp [encrypt.EncryptFile, encrypt.encryptFileAES256GCM, encrypt.encryptFile,
        ↓validate_enc_run, os.ReadFile, encrypt.generateNonce, rand.ReadFull,
        GCM_STANDARD_NONCE_SIZE, wrapErr_apply, bind, Go.bind, pure, Go.pure, hk, hin, hr] at henc

/-- Method `decryptFile` on a file longer than a nonce: the split pair goes to
`decrypt`, and a plaintext that verifies is written out. -/
theorem decryptFile_split (G : GCMCore) (key blob : Bytes) (inp out : String) (w : World)
    (hk : key.length = 32) (hin : w.files.lookup inp = some blob) (hb : 12 < blob.length) :
    decrypt.decryptFile G key [] inp out true w =
      match openVerdict G key (blob.take 12) (blob.drop 12) with
      | .ok data =>
        (os.WriteFile out data FILE_PERMISSION).wrapErr "write decrypt file error"
          { w with trace := w.trace ++ [Event.readFile inp, Event.newCipher key, Event.newGCM 12,
              Event.gcmOpen (blob.take 12) (blob.drop 12)] }
      | .err e =>
        (.err e, { w with trace := w.trace ++ [Event.readFile inp, Event.newCipher key,
            Event.newGCM 12, Event.gcmOpen (blob.take 12) (blob.drop 12)] })
      | .panic p =>
        (.panic p, { w with trace := w.trace ++ [Event.readFile inp, Event.newCipher key,
            Event.newGCM 12, Event.gcmOpen (blob.take 12) (blob.drop 12)] }) := by
  have hn : blob.take 12 ≠ [] := take_ne_nil _ (by omega)
  have hb1 : 12 ≤ blob.length := by omega
  have hrun := decrypt_run G key (blob.take 12) (blob.drop 12) hk hn
  cases hv : openVerdict G key (blob.take 12) (blob.drop 12) <;>
  simp [hv, decrypt.decryptFile, decrypt.buildNonce, sliceTo, sliceFrom, os.ReadFile, hin,
    GCM_STANDARD_NONCE_SIZE, bind, Go.bind, wrapErr_apply, Go.pure, pure, hb, hb1, hrun]

/-- Method `decryptFile` on a file no longer than a nonce: the construction fails. -/
theorem decryptFile_whole (G : GCMCore) (key blob : Bytes) (inp out : String) (w : World)
    (hk : key.length = 32) (hin : w.files.lookup inp = some blob) (hb : blob.length ≤ 12) :
    decrypt.decryptFile G key [] inp out true w =
      (.err (.wrap .gcmZeroNonce "create AES256GCM error"),
        { w with trace := w.trace ++ [.readFile inp, .newCipher key, .newGCM 0] }) := by
  have hb1 : ¬ 12 < blob.length := by omega
  simp [decrypt.decryptFile, os.ReadFile, hin, GCM_STANDARD_NONCE_SIZE, bind, Go.bind,
    wrapErr_apply, Go.pure, pure, hb1, decrypt_run_zero G key blob hk]

/-- Method `DecryptFile` on a file that holds a nonce and what was sealed under it. -/
theorem DecryptFile_sealed (G : GCMCore) (key n d : Bytes) (mid out : String) (w : World)
    (hk : key.length = 32) (hn : n.length = 12) (hp : d.length ≤ gcmMaxPlaintext)
    (hmid : w.files.lookup mid = some (n ++ G.seal key n d)) (hout : out ∉ w.unwritable) :
    decrypt.DecryptFile G key mid out w =
      (.ok (), { w with
        files := (out, d) :: w.files,
        trace := w.trace ++ [.validateKey key, .readFile mid, .newCipher key, .newGCM 12,
          .gcmOpen n (G.seal key n d), .writeFile out d FILE_PERMISSION] }) := by
  have hl := seal_length G key n d
  have hb : 12 < (n ++ G.seal key n d).length := by
    simp only [List.length_append, hn, hl]; omega
  have ht : (n ++ G.seal key n d).take 12 = n := by
    rw [← hn]; simp
  have hdp : (n ++ G.seal key n d).drop 12 = G.seal key n d := by
    rw [← hn]; simp
  have hsplit := decryptFile_split G key _ mid out
    { w with trace := w.trace ++ [.validateKey key] } hk hmid hb
  rw [ht, hdp, openVerdict_seal G key _ d hp] at hsplit
  simp only [decrypt.DecryptFile, decrypt.decryptFileAES256GCM, wrapErr_apply, bind, Go.bind,
    validate_dec_run, hk, if_true, hsplit, os.WriteFile]
  simp [hout]

/-! ## Lengths of encoded and decoded texts -/

theorem encodeChar_not_newline (v : Nat) : isNewline (encodeChar v) = false := by
  have key : ∀ u : Fin 64, isNewline (encodeChar u.val) = false := by decide
  have h := key ⟨v % 64, Nat.mod_lt _ (by decide)⟩
  have e : encodeChar (v % 64) = encodeChar v := by simp [encodeChar]
  rw [← e]
  exact h

theorem effCount_encode (b : Bytes) : effCount (EncodeToString b) = (EncodeToString b).length := by
  have hp : isNewline padChar = false := by decide
  induction b using EncodeToString.induct with
  | case1 => simp [EncodeToString, effCount]
  | case2 a => simp [EncodeToString, effCount, encodeChar_not_newline, hp]
  | case3 a b => simp [EncodeToString, effCount, encodeChar_not_newline, hp]
  | case4 a b c rest ih =>
    simp only [effCount] at ih
    simp [EncodeToString, effCount, encodeChar_not_newline, ih]

theorem length_encode (b : Bytes) : (EncodeToString b).length = 4 * ((b.length + 2) / 3) := by
  induction b using EncodeToString.induct with
  | case1 => simp [EncodeToString]
  | case2 a => simp [EncodeToString]
  | case3 a b => simp [EncodeToString]
  | case4 a b c rest ih =>
    simp only [EncodeToString, List.length_cons, ih]
    omega

theorem effCount_set : ∀ (s : Bytes) (i : Nat) (x : Byte),
    effCount s ≤ effCount (s.set i x) + 1
  | [], _, _ => by simp [effCount]
  | c :: s, 0, x => by
    simp only [effCount, List.set_cons_zero, List.countP_cons]
    split <;> split <;> omega
  | c :: s, i + 1, x => by
    have := effCount_set s i x
    simp only [effCount, List.set_cons_succ, List.countP_cons] at this ⊢
    omega

theorem effCount_flipBit (s : Bytes) (i k : Nat) : effCount s ≤ effCount (flipBit s i k) + 1 :=
  effCount_set s i _

theorem decodeTail_effCount : ∀ (src : Bytes) (si : Nat),
    decodeTail src si = none → effCount src = 0
  | [], _, _ => by simp [effCount]
  | c :: rest, si, h => by
    simp only [decodeTail] at h
    split at h
    · rename_i hc
      have := decodeTail_effCount rest _ h
      simp only [effCount] at this
      simp [effCount, hc, this]
    · cases h

theorem decodePad2_effCount : ∀ (src : Bytes) (si len : Nat),
    decodePad2 src si len = none → effCount src = 1
  | [], _, _, h => by simp [decodePad2] at h
  | c :: rest, si, len, h => by
    simp only [decodePad2] at h
    split at h
    · rename_i hc
      have := decodePad2_effCount rest _ len h
      simp only [effCount] at this
      simp [effCount, hc, this]
    · rename_i hc
      split at h
      · have := decodeTail_effCount rest _ h
        simp only [effCount] at this
        simp [effCount, hc, this]
      · cases h

theorem newline_not_alphabet (c : Byte) (h : isNewline c = true) : decodeMap c = none := by
  have hx1 : c = 10 ∨ c = 13 := by
    simp only [isNewline, Bool.or_eq_true, decide_eq_true_eq] at h
    rcases h with h1 | h1
    · exact Or.inl (Fin.ext h1)
    · exact Or.inr (Fin.ext h1)
  rcases hx1 with h1 | h1 <;> subst h1 <;> decide

theorem quantumBytes_length (dbuf : List Nat) :
    (quantumBytes dbuf).length = min (dbuf.length - 1) 3 := by
  simp [quantumBytes]

/-- Every four characters the decoder does not skip yield at least one byte:
a text that decodes has at most `4 * (bytes + 2) / 3` such characters. -/
theorem decodeLoop_length : ∀ (src : Bytes) (si len : Nat) (dbuf : List Nat) (dst out : Bytes),
    dbuf.length ≤ 3 → decodeLoop src si len dbuf dst = .ok out →
    3 * (dbuf.length + effCount src) + 4 * dst.length ≤ 4 * out.length + 8
  | [], si, _, dbuf, dst, out, _, h => by
    simp only [decodeLoop] at h
    split at h
    · rename_i h0
      have : dst = out := by simpa using h
      simp [effCount, h0, this]
    · cases h
  | c :: rest, si, len, dbuf, dst, out, hl, h => by
    simp only [decodeLoop] at h
    have hcount : ∀ b : Bool, isNewline c = b →
        effCount (c :: rest) = effCount rest + (if b then 0 else 1) := by
      intro b hb
      cases b <;> simp [effCount, hb]
    split at h
    · rename_i v hv
      have hnl : isNewline c = false := by
        cases hc : isNewline c
        · rfl
        · rw [newline_not_alphabet c hc] at hv; cases hv
      rw [hcount false hnl]
      split at h
      · rename_i h3
        have ih := decodeLoop_length rest _ len [] _ out (by simp) h
        simp only [List.length_append, quantumBytes_length, List.length_nil,
          List.length_singleton] at ih
        rw [h3] at ih
        simp only [h3] at ih ⊢
        simp at ih ⊢
        omega
      · rename_i h3
        have ih := decodeLoop_length rest _ len (dbuf ++ [v]) dst out
          (by simp; omega) h
        simp only [List.length_append, List.length_singleton] at ih
        simp at ih ⊢
        omega
    · split at h
      · rename_i hnl
        rw [hcount true hnl]
        have ih := decodeLoop_length rest _ len dbuf dst out hl h
        simp at ih ⊢
        omega
      · rename_i hnl
        have hnl1 : isNewline c = false := by simpa using hnl
        rw [hcount false hnl1]
        split at h
        · cases h
        · split at h
          · cases h
          · split at h
            · rename_i h2
              split at h
              · cases h
              · rename_i hp
                have he := decodePad2_effCount rest _ len hp
                have : dst ++ quantumBytes dbuf = out := by simpa using h
                rw [← this, he]
                simp only [List.length_append, quantumBytes_length, h2]
                simp
                omega
            · rename_i h2 h3
              split at h
              · cases h
              · rename_i hp
                have he := decodeTail_effCount rest _ hp
                have : dst ++ quantumBytes dbuf = out := by simpa using h
                rw [← this, he]
                have h4 : dbuf.length = 3 := by omega
                simp only [List.length_append, quantumBytes_length, h4]
                simp
                omega

theorem DecodeString_length (s out : Bytes) (h : DecodeString s = .ok out) :
    3 * effCount s ≤ 4 * out.length + 8 := by
  have := decodeLoop_length s 0 s.length [] [] out (by simp) h
  simpa using this

/-! ## Where a panic can come from -/

theorem bind_panic {α β : Type} (m : Go α) (f : α → Go β) (w : World) (msg : String)
    (h : ((m >>= f) w).1 = .panic msg) :
    (m w).1 = .panic msg ∨ ∃ a w1, m w = (.ok a, w1) ∧ (f a w1).1 = .panic msg := by
  simp only [bind, Go.bind] at h
  cases hm : m w with
  | mk r w1 =>
    cases r with
    | ok a => right; exact ⟨a, w1, rfl, by simpa [hm] using h⟩
    | err e => simp [hm] at h
    | panic p => left; simpa [hm] using h

theorem wrapErr_panic {α : Type} (m : Go α) (s : String) (w : World) (msg : String)
    (h : (m.wrapErr s w).1 = .panic msg) : (m w).1 = .panic msg := by
  rw [wrapErr_apply] at h
  cases hm : m w with
  | mk r w1 =>
    cases r with
    | ok a => simp [hm] at h
    | err e => simp [hm] at h
    | panic p => simpa [hm] using h

theorem wrapErr_ok {α : Type} (m : Go α) (s : String) (w w1 : World) (a : α)
    (h : m.wrapErr s w = (.ok a, w1)) : m w = (.ok a, w1) := by
  rw [wrapErr_apply] at h
  cases hm : m w with
  | mk r w2 =>
    cases r with
    | ok b => simpa [hm] using h
    | err e => simp [hm] at h
    | panic p => simp [hm] at h

/-- The cipher `newAEAD` returns expects nonces of exactly `len(nonce)` bytes,
and `newAEAD` does not panic (package encrypt). -/
theorem enc_newAEAD_post (key nonce : Bytes) (w : World) :
    (∀ gcm w1, encrypt.newAEAD key nonce w = (.ok gcm, w1) → gcm.nonceSize = nonce.length) ∧
    ∀ msg, (encrypt.newAEAD key nonce w).1 ≠ .panic msg := by
  by_cases hk : key.length = 16 ∨ key.length = 24 ∨ key.length = 32 <;>
  by_cases hn : nonce = [] <;>
  simp [encrypt.newAEAD, aes.NewCipher, cipher.NewGCMWithNonceSize, Go.wrapErr, Go.log, Go.fail,
    bind, Go.bind, pure, Go.pure, hk, hn]

/-- The same for package decrypt. -/
theorem dec_newAEAD_post (key nonce : Bytes) (w : World) :
    (∀ gcm w1, decrypt.newAEAD key nonce w = (.ok gcm, w1) → gcm.nonceSize = nonce.length) ∧
    ∀ msg, (decrypt.newAEAD key nonce w).1 ≠ .panic msg := by
  by_cases hk : key.length = 16 ∨ key.length = 24 ∨ key.length = 32 <;>
  by_cases hn : nonce = [] <;>
  simp [decrypt.newAEAD, aes.NewCipher, cipher.NewGCMWithNonceSize, Go.wrapErr, Go.log, Go.fail,
    bind, Go.bind, pure, Go.pure, hk, hn]

/-- With the nonce length the cipher was built for, `Seal` panics only on a
plaintext over the limit. -/
theorem Seal_panic (G : GCMCore) (gcm : AEAD) (nonce plaintext : Bytes) (w : World)
    (msg : String) (hsz : gcm.nonceSize = nonce.length)
    (h : (gcm.Seal G nonce plaintext w).1 = .panic msg) :
    msg = "crypto/cipher: message too large for GCM" ∧ gcmMaxPlaintext < plaintext.length := by
  by_cases hp : plaintext.length > gcmMaxPlaintext
  · simp [AEAD.Seal, Go.log, Go.panic, bind, Go.bind, pure, Go.pure, hsz, hp] at h
    exact ⟨h.symm, hp⟩
  · simp [AEAD.Seal, Go.log, Go.panic, bind, Go.bind, pure, Go.pure, hsz, hp] at h

/-- With the nonce length the cipher was built for, `Open` does not panic. -/
theorem Open_no_panic (G : GCMCore) (gcm : AEAD) (nonce ciphertext : Bytes) (w : World)
    (msg : String) (hsz : gcm.nonceSize = nonce.length) :
    (gcm.Open G nonce ciphertext w).1 ≠ .panic msg := by
  by_cases h1 : ciphertext.length < gcmTagSize
  · simp [AEAD.Open, Go.log, Go.panic, Go.fail, bind, Go.bind, pure, Go.pure, hsz, h1]
  · by_cases h2 : ciphertext.length > gcmMaxPlaintext + gcmTagSize
    · simp [AEAD.Open, Go.log, Go.panic, Go.fail, bind, Go.bind, pure, Go.pure, hsz, h1, h2]
    · cases h3 : G.unseal gcm.key nonce ciphertext <;>
      simp [AEAD.Open, Go.log, Go.panic, Go.fail, bind, Go.bind, pure, Go.pure, hsz, h1, h2, h3]

/-- Method `encrypt` panics only on a plaintext over the limit. -/
theorem encrypt_panic (G : GCMCore) (key nonce plaintext : Bytes) (w : World) (msg : String)
    (h : (encrypt.encrypt G key nonce plaintext w).1 = .panic msg) :
    msg = "crypto/cipher: message too large for GCM" ∧ gcmMaxPlaintext < plaintext.length := by
  unfold encrypt.encrypt at h
  rcases bind_panic _ _ w msg h with h1 | ⟨gcm, w1, h1, h2⟩
  · exact absurd (wrapErr_panic _ _ _ _ h1) ((enc_newAEAD_post key nonce w).2 msg)
  · have hsz := (enc_newAEAD_post key nonce w).1 gcm w1 (wrapErr_ok _ _ _ _ _ h1)
    rcases bind_panic _ _ w1 msg h2 with h3 | ⟨ct, w2, _, h4⟩
    · exact Seal_panic G gcm nonce plaintext w1 msg hsz h3
    · cases h4

/-- Method `decrypt` does not panic. -/
theorem decrypt_no_panic (G : GCMCore) (key nonce ciphertext : Bytes) (w : World) (msg : String) :
    (decrypt.decrypt G key nonce ciphertext w).1 ≠ .panic msg := by
  intro h
  unfold decrypt.decrypt at h
  rcases bind_panic _ _ w msg h with h1 | ⟨gcm, w1, h1, h2⟩
  · exact absurd (wrapErr_panic _ _ _ _ h1) ((dec_newAEAD_post key nonce w).2 msg)
  · have hsz := (dec_newAEAD_post key nonce w).1 gcm w1 (wrapErr_ok _ _ _ _ _ h1)
    rcases bind_panic _ _ w1 msg h2 with h3 | ⟨ct, w2, _, h4⟩
    · exact Open_no_panic G gcm nonce ciphertext w1 msg hsz (wrapErr_panic _ _ _ _ h3)
    · cases h4

/-- Method `buildNonce` slices within bounds once the input is longer than a nonce. -/
theorem buildNonce_no_panic (ciphertext : Bytes) (w : World) (msg : String)
    (hb : GCM_STANDARD_NONCE_SIZE < ciphertext.length) :
    (decrypt.buildNonce ciphertext w).1 ≠ .panic msg := by
  have hb1 : GCM_STANDARD_NONCE_SIZE ≤ ciphertext.length := by omega
  simp [decrypt.buildNonce, sliceTo, sliceFrom, bind, Go.bind, pure, Go.pure, hb1]

theorem validate_enc_no_panic (key : Bytes) (w : World) (msg : String) :
    ((encrypt.validateAES256GCMKey key).wrapErr "validate AES256GCM key error" w).1 ≠
      .panic msg := by
  rw [validate_enc_run]
  by_cases hk : key.length = 32 <;> simp [hk]

theorem validate_dec_no_panic (key : Bytes) (w : World) (msg : String) :
    ((decrypt.validateAES256GCMKey key).wrapErr "validate AES256GCM key error" w).1 ≠
      .panic msg := by
  rw [validate_dec_run]
  by_cases hk : key.length = 32 <;> simp [hk]

theorem generateNonce_no_panic (w : World) (msg : String) :
    (encrypt.generateNonce w).1 ≠ .panic msg := by
  by_cases hr : GCM_STANDARD_NONCE_SIZE ≤ w.rand.length <;>
  simp [encrypt.generateNonce, rand.ReadFull, Go.wrapErr, bind, Go.bind, pure, Go.pure, hr]

theorem ReadFile_post (path : String) (w : World) :
    (∀ d w1, os.ReadFile path w = (.ok d, w1) → w.files.lookup path = some d) ∧
    ∀ msg, (os.ReadFile path w).1 ≠ .panic msg := by
  cases h : w.files.lookup path <;> simp [os.ReadFile, h]

theorem WriteFile_no_panic (path : String) (data : Bytes) (perm : Nat) (w : World) (msg : String) :
    (os.WriteFile path data perm w).1 ≠ .panic msg := by
  by_cases h : path ∈ w.unwritable <;> simp [os.WriteFile, h]

theorem ofExcept_no_panic {α : Type} (x : Except GoError α) (w : World) (msg : String) :
    (Go.ofExcept x w).1 ≠ .panic msg := by
  cases x <;> simp [Go.ofExcept, Go.pure, Go.fail]

theorem nonce_choice_no_panic (b : Bool) (nonce : Bytes) (w : World) (msg : String) :
    ((if b = true then encrypt.generateNonce else pure nonce : Go Bytes) w).1 ≠ .panic msg := by
  cases b
  · simp [pure, Go.pure]
  · simpa using generateNonce_no_panic w msg

/-- Method `encryptAES256GCM` panics only on a plaintext over the limit. -/
theorem encryptAES256GCM_panic (G : GCMCore) (key nonce plaintext : Bytes) (b : Bool)
    (w : World) (msg : String)
    (h : (encrypt.encryptAES256GCM G key nonce plaintext b w).1 = .panic msg) :
    msg = "crypto/cipher: message too large for GCM" ∧ gcmMaxPlaintext < plaintext.length := by
  unfold encrypt.encryptAES256GCM at h
  rcases bind_panic _ _ w msg h with h1 | ⟨_, w1, _, h2⟩
  · exact absurd h1 (validate_enc_no_panic key w msg)
  · rcases bind_panic _ _ w1 msg h2 with h3 | ⟨n, w2, _, h4⟩
    · exact absurd h3 (nonce_choice_no_panic b nonce w1 msg)
    · rcases bind_panic _ _ w2 msg h4 with h5 | ⟨ct, w3, _, h6⟩
      · exact encrypt_panic G key n plaintext w2 msg h5
      · cases h6

/-- Method `encryptFileAES256GCM` panics only on a file over the limit. -/
theorem encryptFileAES256GCM_panic (G : GCMCore) (key nonce : Bytes) (inp out : String)
    (b : Bool) (w : World) (msg : String)
    (h : (encrypt.encryptFileAES256GCM G key nonce inp out b w).1 = .panic msg) :
    msg = "crypto/cipher: message too large for GCM" ∧
      ∃ d, w.files.lookup inp = some d ∧ gcmMaxPlaintext < d.length := by
  unfold encrypt.encryptFileAES256GCM at h
  rcases bind_panic _ _ w msg h with h1 | ⟨_, w1, hv, h2⟩
  · exact absurd h1 (validate_enc_no_panic key w msg)
  · have hw1 : w1.files = w.files := by
      rw [validate_enc_run] at hv
      have := congrArg Prod.snd hv
      simp only at this
      rw [← this]
    unfold encrypt.encryptFile at h2
    rcases bind_panic _ _ w1 msg h2 with h3 | ⟨d, w2, hrd, h4⟩
    · exact absurd (wrapErr_panic _ _ _ _ h3) ((ReadFile_post inp w1).2 msg)
    · have hd := (ReadFile_post inp w1).1 d w2 (wrapErr_ok _ _ _ _ _ hrd)
      rw [hw1] at hd
      rcases bind_panic _ _ w2 msg h4 with h5 | ⟨n, w3, _, h6⟩
      · exact absurd h5 (nonce_choice_no_panic b nonce w2 msg)
      · rcases bind_panic _ _ w3 msg h6 with h7 | ⟨ct, w4, _, h8⟩
        · have := encrypt_panic G key n d w3 msg h7
          exact ⟨this.1, d, hd, this.2⟩
        · exact absurd (wrapErr_panic _ _ _ _ h8) (WriteFile_no_panic _ _ _ _ msg)

theorem split_choice_no_panic (b : Bool) (nonce ciphertext : Bytes) (w : World) (msg : String) :
    ((if (b && decide (ciphertext.length > GCM_STANDARD_NONCE_SIZE)) = true then
        decrypt.buildNonce ciphertext else pure (nonce, ciphertext) : Go (Bytes × Bytes)) w).1 ≠
      .panic msg := by
  by_cases hb : ciphertext.length > GCM_STANDARD_NONCE_SIZE
  · cases b
    · simp [pure, Go.pure]
    · simpa [hb] using buildNonce_no_panic ciphertext w msg hb
  · simp [hb, pure, Go.pure]

/-- Method `decryptAES256GCM` does not panic. -/
theorem decryptAES256GCM_no_panic (G : GCMCore) (key nonce ciphertext : Bytes) (b : Bool)
    (w : World) (msg : String) :
    (decrypt.decryptAES256GCM G key nonce ciphertext b w).1 ≠ .panic msg := by
  intro h
  unfold decrypt.decryptAES256GCM at h
  rcases bind_panic _ _ w msg h with h1 | ⟨_, w1, _, h2⟩
  · exact absurd h1 (validate_dec_no_panic key w msg)
  · rcases bind_panic _ _ w1 msg h2 with h3 | ⟨⟨n, ct⟩, w2, _, h4⟩
    · exact absurd h3 (split_choice_no_panic b nonce ciphertext w1 msg)
    · rcases bind_panic _ _ w2 msg h4 with h5 | ⟨r, w3, _, h6⟩
      · exact absurd h5 (decrypt_no_panic G key n ct w2 msg)
      · cases h6

/-- Method `decryptFileAES256GCM` does not panic. -/
theorem decryptFileAES256GCM_no_panic (G : GCMCore) (key nonce : Bytes) (inp out : String)
    (b : Bool) (w : World) (msg : String) :
    (decrypt.decryptFileAES256GCM G key nonce inp out b w).1 ≠ .panic msg := by
  intro h
  unfold decrypt.decryptFileAES256GCM at h
  rcases bind_panic _ _ w msg h with h1 | ⟨_, w1, _, h2⟩
  · exact absurd h1 (validate_dec_no_panic key w msg)
  · unfold decrypt.decryptFile at h2
    rcases bind_panic _ _ w1 msg h2 with h3 | ⟨blob, w2, _, h4⟩
    · exact absurd (wrapErr_panic _ _ _ _ h3) ((ReadFile_post inp w1).2 msg)
    · rcases bind_panic _ _ w2 msg h4 with h5 | ⟨⟨n, ct⟩, w3, _, h6⟩
      · exact absurd h5 (split_choice_no_panic b nonce blob w2 msg)
      · rcases bind_panic _ _ w3 msg h6 with h7 | ⟨data, w4, _, h8⟩
        · exact absurd h7 (decrypt_no_panic G key n ct w3 msg)
        · exact absurd (wrapErr_panic _ _ _ _ h8) (WriteFile_no_panic _ _ _ _ msg)

/-! ## Texts the decoder rejects -/

theorem decodeTail_illegal : ∀ (src : Bytes) (si : Nat),
    (∃ c ∈ src, isBase64Byte c = false) → ∃ e, decodeTail src si = some e
  | [], _, h => by simp at h
  | c :: rest, si, h => by
    simp only [decodeTail]
    split
    · rename_i hc
      have hr : ∃ x ∈ rest, isBase64Byte x = false := by
        obtain ⟨x, hx, hi⟩ := h
        rcases List.mem_cons.mp hx with h1 | h1
        · subst h1
          simp [isBase64Byte, hc] at hi
        · exact ⟨x, h1, hi⟩
      exact decodeTail_illegal rest _ hr
    · exact ⟨_, rfl⟩

theorem decodePad2_illegal : ∀ (src : Bytes) (si len : Nat),
    (∃ c ∈ src, isBase64Byte c = false) → ∃ e, decodePad2 src si len = some e
  | [], _, _, h => by simp at h
  | c :: rest, si, len, h => by
    simp only [decodePad2]
    have hr : isBase64Byte c = true → ∃ x ∈ rest, isBase64Byte x = false := by
      intro hc
      obtain ⟨x, hx, hi⟩ := h
      rcases List.mem_cons.mp hx with h1 | h1
      · subst h1
        rw [hc] at hi
        cases hi
      · exact ⟨x, h1, hi⟩
    split
    · rename_i hc
      exact decodePad2_illegal rest _ len (hr (by simp [isBase64Byte, hc]))
    · split
      · rename_i hc
        exact decodeTail_illegal rest _ (hr (by simp [isBase64Byte, hc]))
      · exact ⟨_, rfl⟩

theorem decodeLoop_illegal : ∀ (src : Bytes) (si len : Nat) (dbuf : List Nat) (dst : Bytes),
    (∃ c ∈ src, isBase64Byte c = false) → ∃ e, decodeLoop src si len dbuf dst = .error e
  | [], _, _, _, _, h => by simp at h
  | c :: rest, si, len, dbuf, dst, h => by
    simp only [decodeLoop]
    have hr : isBase64Byte c = true → ∃ x ∈ rest, isBase64Byte x = false := by
      intro hc
      obtain ⟨x, hx, hi⟩ := h
      rcases List.mem_cons.mp hx with h1 | h1
      · subst h1
        rw [hc] at hi
        cases hi
      · exact ⟨x, h1, hi⟩
    split
    · rename_i v hv
      have hc : isBase64Byte c = true := by simp [isBase64Byte, hv]
      split
      · exact decodeLoop_illegal rest _ len _ _ (hr hc)
      · exact decodeLoop_illegal rest _ len _ _ (hr hc)
    · split
      · rename_i hc
        exact decodeLoop_illegal rest _ len _ _ (hr (by simp [isBase64Byte, hc]))
      · split
        · exact ⟨_, rfl⟩
        · rename_i hc
          have hp : isBase64Byte c = true := by
            have : c = padChar := by simpa using hc
            simp [isBase64Byte, this]
          split
          · exact ⟨_, rfl⟩
          · split
            · obtain ⟨e, he⟩ := decodePad2_illegal rest (si + 1) len (hr hp)
              rw [he]
              exact ⟨_, rfl⟩
            · obtain ⟨e, he⟩ := decodeTail_illegal rest (si + 1) (hr hp)
              rw [he]
              exact ⟨_, rfl⟩

/-- A text with a byte that is no alphabet character, padding or line break
does not decode. -/
theorem DecodeString_illegal (s : Bytes) (h : ∃ c ∈ s, isBase64Byte c = false) :
    ∃ e, DecodeString s = .error e :=
  decodeLoop_illegal s 0 s.length [] [] h

theorem encodeChar_lt (v : Nat) : (encodeChar v).val < 128 := by
  have key : ∀ u : Fin 64, (encodeChar u.val).val < 128 := by decide
  have h := key ⟨v % 64, Nat.mod_lt _ (by decide)⟩
  have e : encodeChar (v % 64) = encodeChar v := by simp [encodeChar]
  rw [← e]
  exact h

/-- Every character of an encoded text is ASCII. -/
theorem EncodeToString_lt (b : Bytes) : ∀ x ∈ EncodeToString b, x.val < 128 := by
  have hp : padChar.val < 128 := by decide
  induction b using EncodeToString.induct with
  | case1 => simp [EncodeToString]
  | case2 a =>
    intro x hx
    simp only [EncodeToString, List.mem_cons, List.mem_singleton, List.not_mem_nil,
      or_false] at hx
    rcases hx with h | h | h | h <;> subst h <;> first | exact encodeChar_lt _ | exact hp
  | case3 a b =>
    intro x hx
    simp only [EncodeToString, List.mem_cons, List.mem_singleton, List.not_mem_nil,
      or_false] at hx
    rcases hx with h | h | h | h <;> subst h <;> first | exact encodeChar_lt _ | exact hp
  | case4 a b c rest ih =>
    intro x hx
    simp only [EncodeToString, List.mem_cons] at hx
    rcases hx with h | h | h | h | h
    · subst h; exact encodeChar_lt _
    · subst h; exact encodeChar_lt _
    · subst h; exact encodeChar_lt _
    · subst h; exact encodeChar_lt _
    · exact ih x h

set_option maxRecDepth 8192 in
/-- An ASCII byte with its top bit flipped is no byte the decoder accepts. -/
theorem flip7_not_base64 : ∀ a : Byte, a.val < 128 → isBase64Byte (a ^^^ byte (2 ^ 7)) = false := by
  decide

/-- Flipping the top bit of any character of an encoded text makes it undecodable. -/
theorem DecodeString_flip7 (b : Bytes) (i : Nat) (hi : i < (EncodeToString b).length) :
    ∃ e, DecodeString (flipBit (EncodeToString b) i 7) = .error e := by
  apply DecodeString_illegal
  refine ⟨(EncodeToString b).getD i 0 ^^^ byte (2 ^ 7), List.mem_set _ i hi _, ?_⟩
  apply flip7_not_base64
  rw [List.getD_eq_getElem _ _ hi]
  exact EncodeToString_lt b _ (List.getElem_mem _)

/-! ## The decoder accepts exactly the valid texts, line breaks aside -/

set_option maxRecDepth 8192 in
theorem isAlphabetChar_iff : ∀ c : Byte, isAlphabetChar c = (decodeMap c).isSome := by
  decide

theorem decodeTail_none_iff : ∀ (src : Bytes) (si : Nat),
    decodeTail src si = none ↔ dropNewlines src = []
  | [], _ => by simp [decodeTail, dropNewlines]
  | c :: rest, si => by
    have ih := decodeTail_none_iff rest (si + 1)
    simp only [dropNewlines] at ih
    by_cases hc : isNewline c = true
    · simp [decodeTail, dropNewlines, hc, ih]
    · simp [decodeTail, dropNewlines, hc]

theorem decodePad2_none_iff : ∀ (src : Bytes) (si len : Nat),
    decodePad2 src si len = none ↔ dropNewlines src = [padChar]
  | [], _, _ => by simp [decodePad2, dropNewlines]
  | c :: rest, si, len => by
    have ih := decodePad2_none_iff rest (si + 1) len
    have it := decodeTail_none_iff rest (si + 1)
    simp only [dropNewlines] at ih it
    by_cases hc : isNewline c = true
    · simp [decodePad2, dropNewlines, hc, ih]
    · by_cases hp : c = padChar
      · have hn : isNewline padChar = false := by decide
        subst hp
        simp [decodePad2, dropNewlines, hn, it]
      · simp [decodePad2, dropNewlines, hc, hp]

/-- What is left to read, line breaks aside, completes the quantum in hand
and is then valid. -/
theorem decodeLoop_ok_iff : ∀ (src : Bytes) (si len : Nat) (dbuf : List Nat) (dst : Bytes),
    dbuf.length ≤ 3 →
    ((∃ out, decodeLoop src si len dbuf dst = .ok out) ↔
      ((dbuf.length + (dropNewlines src).length) % 4 = 0 ∧
        ((dropNewlines src).dropWhile isAlphabetChar = [] ∨
          (dropNewlines src).dropWhile isAlphabetChar = [padChar] ∨
          (dropNewlines src).dropWhile isAlphabetChar = [padChar, padChar])))
  | [], si, _, dbuf, dst, hl => by
    simp only [decodeLoop, dropNewlines, List.filter_nil, List.length_nil, List.dropWhile_nil]
    by_cases h0 : dbuf.length = 0
    · simp [h0]
    · have : ¬ dbuf.length % 4 = 0 := by omega
      simp [h0, this]
  | c :: rest, si, len, dbuf, dst, hl => by
    by_cases hc : isNewline c = true
    · have hm := newline_not_alphabet c hc
      have ih := decodeLoop_ok_iff rest (si + 1) len dbuf dst hl
      simp only [dropNewlines] at ih
      simp only [decodeLoop, hm, hc, if_true, dropNewlines]
      simpa [hc] using ih
    · have hc1 : isNewline c = false := by simpa using hc
      have hdn : dropNewlines (c :: rest) = c :: dropNewlines rest := by
        simp [dropNewlines, hc1]
      rw [hdn]
      cases hm : decodeMap c with
      | some v =>
        have ha : isAlphabetChar c = true := by rw [isAlphabetChar_iff, hm]; rfl
        simp only [decodeLoop, hm, List.dropWhile_cons, ha, if_true, List.length_cons]
        by_cases h3 : dbuf.length = 3
        · have ih := decodeLoop_ok_iff rest (si + 1) len [] (dst ++ quantumBytes (dbuf ++ [v]))
            (by simp)
          simp only [h3, if_true]
          rw [ih]
          simp only [List.length_nil]
          constructor
          · rintro ⟨h1, h2⟩; exact ⟨by omega, h2⟩
          · rintro ⟨h1, h2⟩; exact ⟨by omega, h2⟩
        · have ih := decodeLoop_ok_iff rest (si + 1) len (dbuf ++ [v]) dst (by simp; omega)
          simp only [h3, if_false]
          rw [ih]
          simp only [List.length_append, List.length_singleton]
          constructor
          · rintro ⟨h1, h2⟩; exact ⟨by omega, h2⟩
          · rintro ⟨h1, h2⟩; exact ⟨by omega, h2⟩
      | none =>
        have ha : isAlphabetChar c = false := by rw [isAlphabetChar_iff, hm]; rfl
        simp only [decodeLoop, hm, hc1, List.dropWhile_cons, ha, List.length_cons]
        by_cases hp : c = padChar
        · subst hp
          by_cases h2 : dbuf.length < 2
          · have : ¬ (dbuf.length + ((dropNewlines rest).length + 1)) % 4 = 0 ∨
                (dropNewlines rest ≠ [] ∧ dropNewlines rest ≠ [padChar]) := by
              by_cases e1 : dropNewlines rest = []
              · left; rw [e1]; simp; omega
              · by_cases e2 : dropNewlines rest = [padChar]
                · left; rw [e2]; simp; omega
                · right; exact ⟨e1, e2⟩
            simp [h2]
            intro hmod
            rcases this with h | ⟨e1, e2⟩
            · exact absurd hmod h
            · exact ⟨e1, e2⟩
          · by_cases h22 : dbuf.length = 2
            · have hp2 := decodePad2_none_iff rest (si + 1) len
              cases hd : decodePad2 rest (si + 1) len with
              | none =>
                have e := hp2.mp hd
                simp [h22, hd, e]
              | some e =>
                have hne : dropNewlines rest ≠ [padChar] := by
                  intro h; rw [hp2.mpr h] at hd; cases hd
                simp [h22, hd]
                intro hmod
                refine ⟨?_, hne⟩
                intro e1
                rw [e1] at hmod
                simp at hmod
            · have h33 : dbuf.length = 3 := by omega
              have ht := decodeTail_none_iff rest (si + 1)
              cases hd : decodeTail rest (si + 1) with
              | none =>
                have e := ht.mp hd
                simp [h33, hd, e]
              | some e =>
                have hne : dropNewlines rest ≠ [] := by
                  intro h; rw [ht.mpr h] at hd; cases hd
                simp [h33, hd]
                intro hmod
                refine ⟨hne, ?_⟩
                intro e1
                rw [e1] at hmod
                simp at hmod
        · simp [hp]

/-- The decoder accepts a text exactly when the text, its CR and LF characters
dropped, is valid standard-alphabet padded base64. -/
theorem DecodeString_ok_iff (s : Bytes) :
    (∃ out, DecodeString s = .ok out) ↔ validStdBase64 (dropNewlines s) = true := by
  rw [DecodeString, decodeLoop_ok_iff s 0 s.length [] [] (by simp)]
  have hp : padChar = 61 := rfl
  simp only [validStdBase64, hp, List.length_nil, Nat.zero_add, Bool.and_eq_true, beq_iff_eq,
    Bool.or_eq_true, or_assoc]

/-- Witness of C1: a two-byte plaintext under the sample key. -/
theorem auto_nonce_round_trip_witness :
    (decrypt.Decrypt demoCore demoKey (ascii "BwcHBwcHBwcHBwcHBROqq6ytrq+wsbKztLW2t7i5")
      demoWorld).1 = .ok (ascii "hi") :=
  auto_nonce_round_trip demoCore demoKey (ascii "hi")
    (ascii "BwcHBwcHBwcHBwcHBROqq6ytrq+wsbKztLW2t7i5") demoWorld demoWorld (by decide) (by decide)

/-! ## C2: round trip with a supplied nonce -/

theorem EncryptWithNonce_run (G : GCMCore) (key nonce plaintext : Bytes) (w : World)
    (hk : key.length = 32) (hn : nonce ≠ []) (hp : plaintext.length ≤ gcmMaxPlaintext) :
    encrypt.EncryptWithNonce G key nonce plaintext w =
      (.ok (EncodeToString (G.seal key nonce plaintext)),
        { w with trace := w.trace ++ [.validateKey key, .newCipher key, .newGCM nonce.length,
                   .seal nonce plaintext] }) := by
  simp [encrypt.EncryptWithNonce, encrypt.encryptAES256GCM, ↓validate_enc_run,
    wrapErr_apply, bind, Go.bind, pure, Go.pure, hk, encrypt_run_ok G key nonce plaintext hk hn hp]

theorem EncryptWithNonce_run_big (G : GCMCore) (key nonce plaintext : Bytes) (w : World)
    (hk : key.length = 32) (hn : nonce ≠ []) (hp : plaintext.length > gcmMaxPlaintext) :
    (encrypt.EncryptWithNonce G key nonce plaintext w).1 =
      .panic "crypto/cipher: message too large for GCM" := by
  simp [encrypt.EncryptWithNonce, encrypt.encryptAES256GCM, ↓validate_enc_run,
    wrapErr_apply, bind, Go.bind, pure, Go.pure, hk, encrypt_run_big G key nonce plaintext hk hn hp]

theorem DecryptWithNonce_run (G : GCMCore) (key nonce text blob : Bytes) (w : World)
    (hk : key.length = 32) (hn : nonce ≠ []) (hd : DecodeString text = .ok blob) :
    decrypt.DecryptWithNonce G key nonce text w =
      ((match openVerdict G key nonce blob with
        | .err e => .err (.wrap e "Decrypt AES256GCM error")
        | r => r),
        { w with trace := w.trace ++ [.validateKey key, .newCipher key, .newGCM nonce.length,
            .gcmOpen nonce blob] }) := by
  cases hv : openVerdict G key nonce blob <;>
  simp [hv, decrypt.DecryptWithNonce, decrypt.decryptAES256GCM, Go.ofExcept, hd, bind, Go.bind,
    wrapErr_apply, Go.pure, pure, ↓validate_dec_run, hk, decrypt_run G key nonce blob hk hn]

theorem demoKey_length : demoKey.length = 32 := by decide

theorem demoNonce_ne_nil : demoNonce ≠ [] := by decide

theorem oversize_length :
    (List.replicate (gcmMaxPlaintext + 1) (0 : Byte)).length > gcmMaxPlaintext := by
  rw [List.length_replicate]
  exact Nat.lt_succ_self _

/-- C2, counterexample. With the sample 32-byte key and 12-byte nonce, a
plaintext of `gcmMaxPlaintext + 1` bytes makes `EncryptWithNonce` panic in `Seal`:
it does not succeed with a text. -/
theorem explicit_nonce_oversize_panics :
    (encrypt.EncryptWithNonce demoCore demoKey demoNonce
        (List.replicate (gcmMaxPlaintext + 1) 0) demoWorld).1 =
      .panic "crypto/cipher: message too large for GCM" ∧
    ¬ ∃ c, (encrypt.EncryptWithNonce demoCore demoKey demoNonce
        (List.replicate (gcmMaxPlaintext + 1) 0) demoWorld).1 = .ok c := by
  have h := EncryptWithNonce_run_big demoCore demoKey demoNonce
    (List.replicate (gcmMaxPlaintext + 1) 0) demoWorld demoKey_length demoNonce_ne_nil
    oversize_length
  refine ⟨h, ?_⟩
  rintro ⟨c, hc⟩
  rw [h] at hc
  cases hc

/-- C2, amended. For every 32-byte key, every 12-byte nonce and every plaintext
of at most `gcmMaxPlaintext` bytes, `EncryptWithNonce` succeeds with the text
`c = base64(Seal(key, nonce, plaintext))`, and `DecryptWithNonce(key, nonce, c)`,
run in any state, returns exactly the plaintext. -/
theorem explicit_nonce_round_trip (G : GCMCore) (key nonce plaintext : Bytes) (w w2 : World)
    (hk : key.length = 32) (hn : nonce.length = 12)
    (hp : plaintext.length ≤ gcmMaxPlaintext) :
    ∃ c, (encrypt.EncryptWithNonce G key nonce plaintext w).1 = .ok c ∧
      (decrypt.DecryptWithNonce G key nonce c w2).1 = .ok plaintext := by
  have hne : nonce ≠ [] := by
    intro h
    rw [h] at hn
    cases hn
  refine ⟨EncodeToString (G.seal key nonce plaintext), ?_, ?_⟩
  · rw [EncryptWithNonce_run G key nonce plaintext w hk hne hp]
  · rw [DecryptWithNonce_run G key nonce _ _ w2 hk hne (DecodeString_EncodeToString _),
      openVerdict_seal G key nonce plaintext hp]

/-- Witness of C2, amended: the sample key and nonce, the plaintext `hello`. -/
theorem explicit_nonce_round_trip_witness :
    ∃ c, (encrypt.EncryptWithNonce demoCore demoKey demoNonce (ascii "hello") demoWorld).1 =
        .ok c ∧
      (decrypt.DecryptWithNonce demoCore demoKey demoNonce c demoWorld).1 = .ok (ascii "hello") :=
  explicit_nonce_round_trip demoCore demoKey demoNonce (ascii "hello") demoWorld demoWorld
    (by decide) (by decide) (by decide)

/-! ## C3: keys of the wrong length -/

/-- C3, counterexample. With a 31-byte key and the text `!`, `Decrypt` and
`DecryptWithNonce` fail with the base64 decode error, not with the key-length
error: the key is never looked at. -/
theorem short_key_bad_text_decode_error :
    decrypt.Decrypt demoCore (List.replicate 31 1) (ascii "!") demoWorld =
      (.err (.wrap (.CorruptInputError 0) "decode ciphertext error"), demoWorld) ∧
    decrypt.DecryptWithNonce demoCore (List.replicate 31 1) demoNonce (ascii "!") demoWorld =
      (.err (.wrap (.CorruptInputError 0) "decode ciphertext error"), demoWorld) ∧
    (decrypt.Decrypt demoCore (List.replicate 31 1) (ascii "!") demoWorld).1.errCause ≠
      some (.new "key must be 32 bytes") := by
  decide

/-- C3, amended. For every key whose length is not 32 bytes and every value of
the other arguments: `Encrypt` and `EncryptWithNonce` fail with the key-length
error; `Decrypt` and `DecryptWithNonce` fail with the key-length error whenever
the text decodes as base64 (a text that does not decode fails with the decode
error first).  In each case the only call logged is the key check: no entropy
is read, no cipher is constructed, nothing is sealed or opened. -/
theorem key_length_rejection (G : GCMCore) (key nonce data text : Bytes) (w : World)
    (hk : key.length ≠ 32) :
    encrypt.Encrypt G key data w =
      (.err (.wrap (.new "key must be 32 bytes") "validate AES256GCM key error"),
        { w with trace := w.trace ++ [.validateKey key] }) ∧
    encrypt.EncryptWithNonce G key nonce data w =
      (.err (.wrap (.wrap (.new "key must be 32 bytes") "validate AES256GCM key error")
          "Encrypt AES256GCM error"),
        { w with trace := w.trace ++ [.validateKey key] }) ∧
    (∀ blob, DecodeString text = .ok blob →
      decrypt.Decrypt G key text w =
        (.err (.wrap (.wrap (.new "key must be 32 bytes") "validate AES256GCM key error")
            "Decrypt AES256GCM with nonce error"),
          { w with trace := w.trace ++ [.validateKey key] }) ∧
      decrypt.DecryptWithNonce G key nonce text w =
        (.err (.wrap (.wrap (.new "key must be 32 bytes") "validate AES256GCM key error")
            "Decrypt AES256GCM error"),
          { w with trace := w.trace ++ [.validateKey key] })) ∧
    (∀ e, DecodeString text = .error e →
      decrypt.Decrypt G key text w = (.err (.wrap e "decode ciphertext error"), w) ∧
      decrypt.DecryptWithNonce G key nonce text w =
        (.err (.wrap e "decode ciphertext error"), w)) := by
  refine ⟨?_, ?_, ?_, ?_⟩
  · simp [encrypt.Encrypt, encrypt.encryptAES256GCM, ↓validate_enc_run, bind, Go.bind, hk]
  · simp [encrypt.EncryptWithNonce, encrypt.encryptAES256GCM, ↓validate_enc_run, wrapErr_apply,
      bind, Go.bind, hk]
  · intro blob hd
    constructor
    · simp [decrypt.Decrypt, decrypt.decryptAES256GCM, ↓validate_dec_run, wrapErr_apply,
        Go.ofExcept, Go.pure, hd, bind, Go.bind, hk]
    · simp [decrypt.DecryptWithNonce, decrypt.decryptAES256GCM, ↓validate_dec_run, wrapErr_apply,
        Go.ofExcept, Go.pure, hd, bind, Go.bind, hk]
  · intro e hd
    constructor
    · simp [decrypt.Decrypt, wrapErr_apply, Go.ofExcept, Go.fail, hd, bind, Go.bind]
    · simp [decrypt.DecryptWithNonce, wrapErr_apply, Go.ofExcept, Go.fail, hd, bind, Go.bind]

/-- Witness of C3, amended: a 31-byte key; the text `AAAA` decodes. -/
theorem key_length_rejection_witness :
    encrypt.Encrypt demoCore (List.replicate 31 1) (ascii "hi") demoWorld =
      (.err (.wrap (.new "key must be 32 bytes") "validate AES256GCM key error"),
        { demoWorld with trace := demoWorld.trace ++ [.validateKey (List.replicate 31 1)] }) :=
  (key_length_rejection demoCore (List.replicate 31 1) demoNonce (ascii "hi") (ascii "AAAA")
    demoWorld (by decide)).1

/-! ## C4: malformed base64 -/

theorem decodeTail_shape : ∀ (src : Bytes) (si : Nat) (e : GoError),
    decodeTail src si = some e → ∃ off, e = .CorruptInputError off
  | [], _, _, h => by simp [decodeTail] at h
  | c :: rest, si, e, h => by
    simp only [decodeTail] at h
    split at h
    · exact decodeTail_shape rest _ e h
    · exact ⟨si, by simpa using h.symm⟩

theorem decodePad2_shape : ∀ (src : Bytes) (si len : Nat) (e : GoError),
    decodePad2 src si len = some e → ∃ off, e = .CorruptInputError off
  | [], _, len, e, h => ⟨len, by simpa [decodePad2] using h.symm⟩
  | c :: rest, si, len, e, h => by
    simp only [decodePad2] at h
    split at h
    · exact decodePad2_shape rest _ len e h
    · split at h
      · exact decodeTail_shape rest _ e h
      · exact ⟨si - 1, by simpa using h.symm⟩

theorem decodeLoop_shape : ∀ (src : Bytes) (si len : Nat) (dbuf : List Nat) (dst : Bytes)
    (e : GoError), decodeLoop src si len dbuf dst = .error e → ∃ off, e = .CorruptInputError off
  | [], si, _, dbuf, _, e, h => by
    simp only [decodeLoop] at h
    split at h
    · cases h
    · exact ⟨_, by simpa using h.symm⟩
  | c :: rest, si, len, dbuf, dst, e, h => by
    simp only [decodeLoop] at h
    split at h
    · split at h
      · exact decodeLoop_shape rest _ len _ _ e h
      · exact decodeLoop_shape rest _ len _ _ e h
    · split at h
      · exact decodeLoop_shape rest _ len _ _ e h
      · split at h
        · exact ⟨si, by simpa using h.symm⟩
        · split at h
          · exact ⟨si, by simpa using h.symm⟩
          · split at h
            · split at h
              · rename_i e1 he1
                have := decodePad2_shape rest _ len e1 he1
                obtain ⟨off, ho⟩ := this
                exact ⟨off, by rw [← ho]; simpa using h.symm⟩
              · cases h
            · split at h
              · rename_i e1 he1
                have := decodeTail_shape rest _ e1 he1
                obtain ⟨off, ho⟩ := this
                exact ⟨off, by rw [← ho]; simpa using h.symm⟩
              · cases h

/-- C4, counterexample. The text `AA`, CR, LF, `AA` is not valid standard-alphabet
padded base64, yet the decoder skips the line break and returns three zero
bytes: `Decrypt` under the sample key goes on to check the key and to construct
the cipher, and fails there; under a five-byte key it fails with the
key-length error.  Neither failure is the decode error. -/
theorem line_break_text_decoded :
    validStdBase64 (ascii "AA" ++ [13, 10] ++ ascii "AA") = false ∧
    DecodeString (ascii "AA" ++ [13, 10] ++ ascii "AA") = .ok [0, 0, 0] ∧
    decrypt.Decrypt demoCore demoKey (ascii "AA" ++ [13, 10] ++ ascii "AA") demoWorld =
      (.err (.wrap (.wrap .gcmZeroNonce "create AES256GCM error")
          "Decrypt AES256GCM with nonce error"),
        { demoWorld with trace := [.validateKey demoKey, .newCipher demoKey, .newGCM 0] }) ∧
    (decrypt.DecryptWithNonce demoCore (ascii "short") demoNonce
        (ascii "AA" ++ [13, 10] ++ ascii "AA") demoWorld).1.errCause =
      some (.new "key must be 32 bytes") := by
  decide

/-- C4, amended. For every text that, its CR and LF characters dropped, is not
valid standard-alphabet padded base64, and for every key and nonce, `Decrypt`
and `DecryptWithNonce` fail with the decode error, a `CorruptInputError` wrapped
as "decode ciphertext error", and leave the world, its log included, untouched:
the key is not checked, no cipher is constructed and `Open` is not called.  A
text that is valid once its CR and LF characters are dropped is decoded. -/
theorem malformed_base64_rejected (G : GCMCore) (key nonce text : Bytes) (w : World) :
    (validStdBase64 (dropNewlines text) = false →
      ∃ off,
        decrypt.Decrypt G key text w =
          (.err (.wrap (.CorruptInputError off) "decode ciphertext error"), w) ∧
        decrypt.DecryptWithNonce G key nonce text w =
          (.err (.wrap (.CorruptInputError off) "decode ciphertext error"), w)) ∧
    (validStdBase64 (dropNewlines text) = true → ∃ blob, DecodeString text = .ok blob) := by
  refine ⟨?_, (DecodeString_ok_iff text).mpr⟩
  intro hbad
  cases hd : DecodeString text with
  | ok blob =>
    have := (DecodeString_ok_iff text).mp ⟨blob, hd⟩
    rw [hbad] at this
    cases this
  | error e =>
    obtain ⟨off, ho⟩ := decodeLoop_shape _ _ _ _ _ e hd
    subst ho
    refine ⟨off, ?_, ?_⟩
    · simp [decrypt.Decrypt, wrapErr_apply, Go.ofExcept, Go.fail, hd, bind, Go.bind]
    · simp [decrypt.DecryptWithNonce, wrapErr_apply, Go.ofExcept, Go.fail, hd, bind, Go.bind]

/-- Witness of C4, amended: in `AA=A` every byte is legal and the length is
four, but the padding is misplaced; the key is too short as well, and still
the decode error is what comes back. -/
theorem malformed_base64_rejected_witness :
    ∃ off,
      decrypt.Decrypt demoCore (ascii "short") (ascii "AA=A") demoWorld =
        (.err (.wrap (.CorruptInputError off) "decode ciphertext error"), demoWorld) ∧
      decrypt.DecryptWithNonce demoCore (ascii "short") demoNonce (ascii "AA=A") demoWorld =
        (.err (.wrap (.CorruptInputError off) "decode ciphertext error"), demoWorld) :=
  (malformed_base64_rejected demoCore (ascii "short") demoNonce (ascii "AA=A") demoWorld).1
    (by decide)

/-! ## C5: where the nonce is split off -/

theorem decryptAES256GCM_split (G : GCMCore) (key blob : Bytes) (w : World)
    (hk : key.length = 32) (hb : 12 < blob.length) :
    decrypt.decryptAES256GCM G key [] blob true w =
      decrypt.decrypt G key (blob.take 12) (blob.drop 12)
        { w with trace := w.trace ++ [.validateKey key] } := by
  have hb1 : 12 ≤ blob.length := by omega
  cases hv : decrypt.decrypt G key (blob.take 12) (blob.drop 12)
      { w with trace := w.trace ++ [.validateKey key] } with
  | mk r w1 =>
    cases r <;>
    simp [decrypt.decryptAES256GCM, decrypt.buildNonce, sliceTo, sliceFrom,
      GCM_STANDARD_NONCE_SIZE, bind, Go.bind, Go.pure, pure, ↓validate_dec_run, hk, hb, hb1, hv]

theorem decryptAES256GCM_whole (G : GCMCore) (key blob : Bytes) (w : World)
    (hk : key.length = 32) (hb : blob.length ≤ 12) :
    decrypt.decryptAES256GCM G key [] blob true w =
      decrypt.decrypt G key [] blob { w with trace := w.trace ++ [.validateKey key] } := by
  have hb1 : ¬ 12 < blob.length := by omega
  cases hv : decrypt.decrypt G key [] blob { w with trace := w.trace ++ [.validateKey key] } with
  | mk r w1 =>
    cases r <;>
    simp [decrypt.decryptAES256GCM, GCM_STANDARD_NONCE_SIZE, bind, Go.bind, Go.pure, pure,
      ↓validate_dec_run, hk, hb1, hv]

/-- C5, counterexample. For the sample key and a blob of exactly 12 bytes the
log of `decryptAES256GCM` ends with the failed construction `newGCM 0`: nothing
is handed to `Open`. -/
theorem twelve_byte_blob_never_opened :
    (decrypt.decryptAES256GCM demoCore demoKey [] (List.replicate 12 0) true demoWorld).2.trace =
      [.validateKey demoKey, .newCipher demoKey, .newGCM 0] ∧
    (decrypt.decryptAES256GCM demoCore demoKey [] (List.replicate 12 0) true
      demoWorld).2.trace.any Event.isOpen = false := by
  decide

/-- C5, amended. For every 32-byte key and every decoded blob `b`, in
auto-nonce decryption of a text (`decryptAES256GCM`) or a file (`decryptFile`):
when `len(b) > 12` the pair handed to `decrypt`, and by it to `Open` of a cipher
built for 12-byte nonces, is `(b[0:12], b[12:])`; when `len(b) <= 12` the pair
handed to `decrypt` is the empty nonce and `b` unchanged, the construction of
the cipher fails on the zero nonce size, and `Open` is not called.  So a blob of
12 bytes is not split and a blob of 13 bytes is split into a 12-byte nonce and
a 1-byte ciphertext. -/
theorem nonce_extraction_boundary (G : GCMCore) (key b : Bytes) (inp out : String) (w : World)
    (hk : key.length = 32) :
    (12 < b.length →
      decrypt.decryptAES256GCM G key [] b true w =
        decrypt.decrypt G key (b.take 12) (b.drop 12)
          { w with trace := w.trace ++ [.validateKey key] } ∧
      (decrypt.decryptAES256GCM G key [] b true w).2.trace =
        w.trace ++ [.validateKey key, .newCipher key, .newGCM 12,
          .gcmOpen (b.take 12) (b.drop 12)] ∧
      (w.files.lookup inp = some b →
        ∃ rest, (decrypt.decryptFile G key [] inp out true w).2.trace =
          w.trace ++ [.readFile inp, .newCipher key, .newGCM 12,
            .gcmOpen (b.take 12) (b.drop 12)] ++ rest)) ∧
    (b.length ≤ 12 →
      decrypt.decryptAES256GCM G key [] b true w =
        decrypt.decrypt G key [] b { w with trace := w.trace ++ [.validateKey key] } ∧
      decrypt.decryptAES256GCM G key [] b true w =
        (.err (.wrap .gcmZeroNonce "create AES256GCM error"),
          { w with trace := w.trace ++ [.validateKey key, .newCipher key, .newGCM 0] }) ∧
      (w.files.lookup inp = some b →
        decrypt.decryptFile G key [] inp out true w =
          (.err (.wrap .gcmZeroNonce "create AES256GCM error"),
            { w with trace := w.trace ++ [.readFile inp, .newCipher key, .newGCM 0] }))) ∧
    (b.length = 13 → 12 < b.length ∧ (b.take 12).length = 12 ∧ (b.drop 12).length = 1) := by
  refine ⟨?_, ?_, ?_⟩
  · intro hb
    have hn : b.take 12 ≠ [] := take_ne_nil _ (by omega)
    have hl : (b.take 12).length = 12 := by simp; omega
    refine ⟨decryptAES256GCM_split G key b w hk hb, ?_, ?_⟩
    · rw [decryptAES256GCM_split G key b w hk hb, decrypt_run G key _ _ hk hn, hl]
      simp
    · intro hin
      rw [decryptFile_split G key b inp out w hk hin hb]
      cases openVerdict G key (b.take 12) (b.drop 12) with
      | ok data =>
        refine ⟨[.writeFile out data FILE_PERMISSION], ?_⟩
        by_cases ho : out ∈ w.unwritable <;> simp [wrapErr_apply, os.WriteFile, ho]
      | err e => exact ⟨[], by simp⟩
      | panic p => exact ⟨[], by simp⟩
  · intro hb
    refine ⟨decryptAES256GCM_whole G key b w hk hb, ?_, ?_⟩
    · rw [decryptAES256GCM_whole G key b w hk hb, decrypt_run_zero G key b hk]
      simp
    · intro hin
      exact decryptFile_whole G key b inp out w hk hin hb
  · intro hb
    simp [hb]

/-- Witness of C5, amended: the sample key and a 13-byte blob. -/
theorem nonce_extraction_boundary_witness :
    (decrypt.decryptAES256GCM demoCore demoKey [] (List.replicate 13 5) true demoWorld).2.trace =
      demoWorld.trace ++ [.validateKey demoKey, .newCipher demoKey, .newGCM 12,
        .gcmOpen ((List.replicate 13 5).take 12) ((List.replicate 13 5).drop 12)] :=
  ((nonce_extraction_boundary demoCore demoKey (List.replicate 13 5) "in.txt" "out.txt"
    demoWorld (by decide)).1 (by decide)).2.1

/-! ## C6: blobs no longer than a nonce -/

/-- C6, counterexample. With the sample key, the text `AAAA` (three zero bytes)
makes `Decrypt` fail in the construction of the cipher: the root cause is the
zero-length-nonce error of `NewGCMWithNonceSize`, not the authentication error
of `Open`. -/
theorem short_blob_not_authentication_error :
    (decrypt.Decrypt demoCore demoKey (ascii "AAAA") demoWorld).1 =
      .err (.wrap (.wrap .gcmZeroNonce "create AES256GCM error")
        "Decrypt AES256GCM with nonce error") ∧
    (decrypt.Decrypt demoCore demoKey (ascii "AAAA") demoWorld).1.errCause ≠ some .errOpen := by
  decide

/-- C6, amended. For every 32-byte key and every base64 text whose decoded
blob has at most 12 bytes, `Decrypt` fails, and the failure is the
cipher-construction error: `NewGCMWithNonceSize` rejects the nonce size 0, the
error is wrapped "create AES256GCM error", and `Open` is never called. -/
theorem short_blob_construction_error (G : GCMCore) (key text blob : Bytes) (w : World)
    (hk : key.length = 32) (hd : DecodeString text = .ok blob) (hb : blob.length ≤ 12) :
    decrypt.Decrypt G key text w =
      (.err (.wrap (.wrap .gcmZeroNonce "create AES256GCM error")
          "Decrypt AES256GCM with nonce error"),
        { w with trace := w.trace ++ [.validateKey key, .newCipher key, .newGCM 0] }) ∧
    (decrypt.Decrypt G key text w).1.errCause = some .gcmZeroNonce ∧
    (decrypt.Decrypt G key text w).2.trace.any Event.isOpen = w.trace.any Event.isOpen := by
  have h := Decrypt_run_short G key text blob w hk hd hb
  refine ⟨h, ?_, ?_⟩
  · rw [h]; rfl
  · rw [h]; simp [Event.isOpen]

/-- Witness of C6, amended: the sample key and a text decoding to 12 bytes. -/
theorem short_blob_construction_error_witness :
    (decrypt.Decrypt demoCore demoKey (ascii "AAAAAAAAAAAAAAAA") demoWorld).1.errCause =
      some .gcmZeroNonce :=
  (short_blob_construction_error demoCore demoKey (ascii "AAAAAAAAAAAAAAAA")
    (List.replicate 12 0) demoWorld (by decide) (by decide) (by decide)).2.1

/-! ## C8: the framing of the generated nonce -/

/-- C8, counterexample. With the sample key and entropy, a plaintext of
`gcmMaxPlaintext + 1` bytes makes `Encrypt` panic in `Seal`: it returns no text. -/
theorem auto_nonce_oversize_panics :
    (encrypt.Encrypt demoCore demoKey (List.replicate (gcmMaxPlaintext + 1) 0) demoWorld).1 =
      .panic "crypto/cipher: message too large for GCM" ∧
    ¬ ∃ c, (encrypt.Encrypt demoCore demoKey (List.replicate (gcmMaxPlaintext + 1) 0)
        demoWorld).1 = .ok c := by
  have h := Encrypt_run_big demoCore demoKey (List.replicate (gcmMaxPlaintext + 1) 0) demoWorld
    demoKey_length (by decide) oversize_length
  refine ⟨h, ?_⟩
  rintro ⟨c, hc⟩
  rw [h] at hc
  cases hc

/-- C8, amended. For every 32-byte key and every plaintext of at most
`gcmMaxPlaintext` bytes, when the random source yields the 12-byte nonce `n`,
`Encrypt` returns the standard padded base64 encoding of `n ++ Seal(key, n,
plaintext)`: the text decodes to a blob that starts with exactly the 12 bytes
of `n`, whose remainder is the sealed ciphertext with its 16-byte tag, and
which has no other byte. -/
theorem auto_nonce_framing (G : GCMCore) (key plaintext n rest : Bytes) (w : World)
    (hk : key.length = 32) (hn : n.length = 12) (hr : w.rand = n ++ rest)
    (hp : plaintext.length ≤ gcmMaxPlaintext) :
    (encrypt.Encrypt G key plaintext w).1 =
      .ok (EncodeToString (n ++ G.seal key n plaintext)) ∧
    DecodeString (EncodeToString (n ++ G.seal key n plaintext)) =
      .ok (n ++ G.seal key n plaintext) ∧
    (n ++ G.seal key n plaintext).take 12 = n ∧
    (n ++ G.seal key n plaintext).drop 12 = G.seal key n plaintext ∧
    (n ++ G.seal key n plaintext).length = 12 + (plaintext.length + 16) := by
  have hr1 : 12 ≤ w.rand.length := by rw [hr]; simp; omega
  have ht : w.rand.take 12 = n := by rw [hr, ← hn]; simp
  refine ⟨?_, DecodeString_EncodeToString _, ?_, ?_, ?_⟩
  · rw [Encrypt_run G key plaintext w hk hr1 hp, ht]
  · rw [← hn]; simp
  · rw [← hn]; simp
  · simp [seal_length, hn]

/-- Witness of C8, amended: the sample key, the plaintext `hi`, and the sample
world, whose entropy starts with twelve bytes 7. -/
theorem auto_nonce_framing_witness :
    (encrypt.Encrypt demoCore demoKey (ascii "hi") demoWorld).1 =
      .ok (EncodeToString (List.replicate 12 7 ++
        demoCore.seal demoKey (List.replicate 12 7) (ascii "hi"))) :=
  (auto_nonce_framing demoCore demoKey (ascii "hi") (List.replicate 12 7) (List.replicate 12 9)
    demoWorld (by decide) (by decide) (by decide) (by decide)).1

/-! ## C9: file round trip -/

/-- C9. For every 32-byte key and every input file with bytes `d`: if
`EncryptFile(key, in, mid)` succeeds and `DecryptFile(key, mid, out)` is then run
with a writable `out`, `DecryptFile` succeeds and `out` holds exactly `d`; `d` may
be empty and `out` may be `in` or `mid`. -/
theorem file_round_trip (G : GCMCore) (key d : Bytes) (inp mid out : String) (w w1 : World)
    (hk : key.length = 32) (hin : w.files.lookup inp = some d)
    (henc : encrypt.EncryptFile G key inp mid w = (.ok (), w1))
    (hout : out ∉ w1.unwritable) :
    ∃ w2, decrypt.DecryptFile G key mid out w1 = (.ok (), w2) ∧
      w2.files.lookup out = some d := by
  obtain ⟨d1, hin1, hr, hp, _, hw1⟩ := EncryptFile_ok G key inp mid w w1 hk henc
  rw [hin] at hin1
  cases hin1
  have hmid : w1.files.lookup mid = some (w.rand.take 12 ++ G.seal key (w.rand.take 12) d) := by
    rw [hw1]; exact lookup_cons_self _ _ _
  have hn : (w.rand.take 12).length = 12 := by simp; omega
  have hout1 : out ∉ w1.unwritable := hout
  refine ⟨_, DecryptFile_sealed G key _ d mid out w1 hk hn hp hmid hout1, ?_⟩
  exact lookup_cons_self _ _ _

/-- Witness of C9: the sample file `in.txt`, eleven bytes, is encrypted to
`out.bin` and that file decrypted to `out.txt`, which then holds the eleven
bytes. -/
theorem file_round_trip_witness :
    ∃ w2, decrypt.DecryptFile demoCore demoKey "out.bin" "out.txt"
        (encrypt.EncryptFile demoCore demoKey "in.txt" "out.bin" demoWorld).2 = (.ok (), w2) ∧
      w2.files.lookup "out.txt" = some (ascii "hello world") :=
  file_round_trip demoCore demoKey (ascii "hello world") "in.txt" "out.bin" "out.txt" demoWorld
    (encrypt.EncryptFile demoCore demoKey "in.txt" "out.bin" demoWorld).2
    (by decide) (by decide) (by decide) (by decide)

/-! ## C7: a flipped bit -/

theorem Decrypt_run_bad (G : GCMCore) (key text : Bytes) (w : World) (e : GoError)
    (hd : DecodeString text = .error e) :
    decrypt.Decrypt G key text w = (.err (.wrap e "decode ciphertext error"), w) := by
  simp [decrypt.Decrypt, wrapErr_apply, Go.ofExcept, Go.fail, hd, bind, Go.bind]

/-- C7, counterexample. Under the sample key and entropy `Encrypt` of the
empty plaintext returns the 40-character text below.  Flipping bit 7 of its
character 37 gives a byte outside the alphabet, and `Decrypt` fails with the
decode error, not the authentication error.  Flipping bit 6 of the same
character turns `w` into `7`, which differs only in the four bits the decoder
drops before `==`, and `Decrypt` succeeds with the original plaintext. -/
theorem flipped_bit_other_outcomes :
    (encrypt.Encrypt demoCore demoKey [] demoWorld).1 =
      .ok (ascii "BwcHBwcHBwcHBwcHHB0eHyAhIiMkJSYnKCkqKw==") ∧
    (decrypt.Decrypt demoCore demoKey
      (flipBit (ascii "BwcHBwcHBwcHBwcHHB0eHyAhIiMkJSYnKCkqKw==") 37 7) demoWorld).1 =
      .err (.wrap (.CorruptInputError 37) "decode ciphertext error") ∧
    flipBit (ascii "BwcHBwcHBwcHBwcHHB0eHyAhIiMkJSYnKCkqKw==") 37 6 =
      ascii "BwcHBwcHBwcHBwcHHB0eHyAhIiMkJSYnKCkqK7==" ∧
    (decrypt.Decrypt demoCore demoKey
      (flipBit (ascii "BwcHBwcHBwcHBwcHHB0eHyAhIiMkJSYnKCkqKw==") 37 6) demoWorld).1 =
      .ok [] := by
  decide

/-- A blob that carries the nonce and the ciphertext of a sealed message but
another tag is refused by `Open`. -/
theorem Decrypt_run_badtag (G : GCMCore) (key n ct tag1 text : Bytes) (w : World)
    (hk : key.length = 32) (hn : n.length = 12) (ht : tag1.length = 16)
    (hp : ct.length ≤ gcmMaxPlaintext) (hne : G.tag key n ct ≠ tag1)
    (hd : DecodeString text = .ok (n ++ (ct ++ tag1))) :
    (decrypt.Decrypt G key text w).1 =
      .err (.wrap (.wrap .errOpen "decrypt AES256GCM error")
        "Decrypt AES256GCM with nonce error") := by
  have hb : 12 < (n ++ (ct ++ tag1)).length := by
    simp only [List.length_append, hn, ht]; omega
  rw [Decrypt_run_split G key text _ w hk hd hb]
  have h1 : (n ++ (ct ++ tag1)).take 12 = n := by rw [← hn]; simp
  have h2 : (n ++ (ct ++ tag1)).drop 12 = ct ++ tag1 := by rw [← hn]; simp
  have h3 : ¬ ((ct ++ tag1).length < 16 ∨ gcmMaxPlaintext + 16 < (ct ++ tag1).length) := by
    simp only [List.length_append, ht]; omega
  have h4 : G.unseal key n (ct ++ tag1) = none := by
    simp [GCMCore.unseal, gcmTagSize, ht, hne]
  simp only [h1, h2, openVerdict, if_neg h3, h4, wrapVerdict]

/-- C7, amended. For every 32-byte key and plaintext, if `c` is the output of
`Encrypt` and `c'` is `c` with one bit flipped, then, unless `c'` is a forgery
(it decodes to another blob whose tag the cipher accepts), `Decrypt(key, c')`
fails with the authentication error, or fails with the decode error (`c'` is
not valid base64), or returns the original plaintext (`c'` decodes to the same
blob as `c`, the flipped bit being one the decoder drops): it returns no other
plaintext and fails with no other class of error.  The decode error is the
outcome whenever the top bit of a character is flipped, and the
authentication error, for every cipher, whenever `c'` decodes to a blob of the
same length that differs from the original only within its tag. -/
theorem flipped_bit_outcomes (G : GCMCore) (key plaintext c : Bytes) (w w2 : World) (i k : Nat)
    (hk : key.length = 32) (henc : (encrypt.Encrypt G key plaintext w).1 = .ok c) :
    (forged G key c (flipBit c i k) = false →
      (∃ off, (decrypt.Decrypt G key (flipBit c i k) w2).1 =
          .err (.wrap (.CorruptInputError off) "decode ciphertext error")) ∨
      (decrypt.Decrypt G key (flipBit c i k) w2).1 =
          .err (.wrap (.wrap .errOpen "decrypt AES256GCM error")
            "Decrypt AES256GCM with nonce error") ∨
      (DecodeString (flipBit c i k) = DecodeString c ∧
        (decrypt.Decrypt G key (flipBit c i k) w2).1 = .ok plaintext)) ∧
    (i < c.length → ∃ off, (decrypt.Decrypt G key (flipBit c i 7) w2).1 =
      .err (.wrap (.CorruptInputError off) "decode ciphertext error")) ∧
    (∀ blob blob1, DecodeString c = .ok blob → DecodeString (flipBit c i k) = .ok blob1 →
      blob1 ≠ blob → blob1.length = blob.length →
      blob1.take (blob.length - 16) = blob.take (blob.length - 16) →
      (decrypt.Decrypt G key (flipBit c i k) w2).1 =
        .err (.wrap (.wrap .errOpen "decrypt AES256GCM error")
          "Decrypt AES256GCM with nonce error")) := by
  by_cases hr : 12 ≤ w.rand.length
  swap
  · rw [Encrypt_run_dry G key plaintext w hk hr] at henc
    cases henc
  by_cases hp : plaintext.length ≤ gcmMaxPlaintext
  swap
  · rw [Encrypt_run_big G key plaintext w hk hr (by omega)] at henc
    cases henc
  rw [Encrypt_run G key plaintext w hk hr hp] at henc
  have hc : EncodeToString (w.rand.take 12 ++ G.seal key (w.rand.take 12) plaintext) = c := by
    simpa using henc
  have hn : (w.rand.take 12).length = 12 := by simp; omega
  have hl := seal_length G key (w.rand.take 12) plaintext
  have hdc : DecodeString c = .ok (w.rand.take 12 ++ G.seal key (w.rand.take 12) plaintext) := by
    rw [← hc]; exact DecodeString_EncodeToString _
  have hclen : 40 ≤ effCount c := by
    rw [← hc, effCount_encode, length_encode]
    simp only [List.length_append, hn, hl]
    omega
  refine ⟨?_, ?_, ?_⟩
  · intro hnf
    cases hd : DecodeString (flipBit c i k) with
    | error e =>
      left
      obtain ⟨off, ho⟩ := decodeLoop_shape _ _ _ _ _ e hd
      exact ⟨off, by rw [Decrypt_run_bad G key _ w2 e hd, ho]⟩
    | ok blob =>
      right
      have hfl := effCount_flipBit c i k
      have hlen := DecodeString_length _ _ hd
      have hb : 12 < blob.length := by omega
      rw [Decrypt_run_split G key _ blob w2 hk hd hb]
      by_cases hsame : blob = w.rand.take 12 ++ G.seal key (w.rand.take 12) plaintext
      · right
        refine ⟨by rw [hdc, hsame], ?_⟩
        have ht : blob.take 12 = w.rand.take 12 := by
          rw [hsame, ← hn]; simp
        have hdp : blob.drop 12 = G.seal key (w.rand.take 12) plaintext := by
          rw [hsame, List.drop_append_of_le_length (by omega), List.drop_of_length_le (by omega)]
          simp
        simp only [ht, hdp, openVerdict_seal G key _ plaintext hp, wrapVerdict]
      · left
        have hu : G.unseal key (blob.take 12) (blob.drop 12) = none := by
          cases hu : G.unseal key (blob.take 12) (blob.drop 12) with
          | none => rfl
          | some p =>
            simp [forged, hdc, hd, hsame, hu] at hnf
        simp only [openVerdict, hu]
        split_ifs <;> rfl
  · intro hi
    rw [← hc] at hi ⊢
    obtain ⟨e, he⟩ := DecodeString_flip7 _ i hi
    obtain ⟨off, ho⟩ := decodeLoop_shape _ _ _ _ _ e he
    exact ⟨off, by rw [Decrypt_run_bad G key _ w2 e he, ho]⟩
  · intro blob blob1 hb0 hd hne hlen htk
    rw [hdc] at hb0
    have hb : blob = w.rand.take 12 ++ G.seal key (w.rand.take 12) plaintext := by
      simpa using hb0.symm
    have hct : (xorBytes plaintext (G.stream key (w.rand.take 12) plaintext.length)).length =
        plaintext.length := xorBytes_length _ _ (by simp [G.stream_length])
    have hbl : blob.length = 12 + (plaintext.length + 16) := by
      rw [hb]; simp only [List.length_append, hn, hl]
    have hpre : blob.take (blob.length - 16) =
        w.rand.take 12 ++ xorBytes plaintext (G.stream key (w.rand.take 12) plaintext.length) := by
      rw [hb, GCMCore.seal, ← List.append_assoc]
      apply List.take_left'
      simp only [List.length_append, hn, hct, G.tag_length]
      omega
    have hsplit : blob1 = (w.rand.take 12 ++
        xorBytes plaintext (G.stream key (w.rand.take 12) plaintext.length)) ++
        blob1.drop (blob.length - 16) := by
      rw [← hpre, ← htk]
      exact (List.take_append_drop _ _).symm
    have htl : (blob1.drop (blob.length - 16)).length = 16 := by
      rw [List.length_drop, hlen]; omega
    have hne1 : G.tag key (w.rand.take 12)
        (xorBytes plaintext (G.stream key (w.rand.take 12) plaintext.length)) ≠
        blob1.drop (blob.length - 16) := by
      intro heq
      apply hne
      rw [hsplit, ← heq, hb, GCMCore.seal, List.append_assoc]
    rw [hsplit, List.append_assoc] at hd
    exact Decrypt_run_badtag G key _ _ _ _ w2 hk hn htl (by rw [hct]; exact hp) hne1 hd

/-- Witness of C7, amended, on the sample ciphertext of the empty plaintext.
With bit 0 of character 0 flipped, `B` becoming `C`, the text decodes to a blob
with another first nonce byte, which is no forgery, so one of the three
outcomes holds.  With bit 0 of character 16 flipped, `H` becoming `I`, the text
decodes to a blob whose first tag byte is 32 instead of 28, and `Decrypt` fails
with the authentication error. -/
theorem flipped_bit_outcomes_witness :
    ((∃ off, (decrypt.Decrypt demoCore demoKey
        (flipBit (ascii "BwcHBwcHBwcHBwcHHB0eHyAhIiMkJSYnKCkqKw==") 0 0) demoWorld).1 =
        .err (.wrap (.CorruptInputError off) "decode ciphertext error")) ∨
      (decrypt.Decrypt demoCore demoKey
        (flipBit (ascii "BwcHBwcHBwcHBwcHHB0eHyAhIiMkJSYnKCkqKw==") 0 0) demoWorld).1 =
        .err (.wrap (.wrap .errOpen "decrypt AES256GCM error")
          "Decrypt AES256GCM with nonce error") ∨
      (DecodeString (flipBit (ascii "BwcHBwcHBwcHBwcHHB0eHyAhIiMkJSYnKCkqKw==") 0 0) =
          DecodeString (ascii "BwcHBwcHBwcHBwcHHB0eHyAhIiMkJSYnKCkqKw==") ∧
        (decrypt.Decrypt demoCore demoKey
          (flipBit (ascii "BwcHBwcHBwcHBwcHHB0eHyAhIiMkJSYnKCkqKw==") 0 0) demoWorld).1 =
          .ok [])) ∧
    (decrypt.Decrypt demoCore demoKey
        (flipBit (ascii "BwcHBwcHBwcHBwcHHB0eHyAhIiMkJSYnKCkqKw==") 16 0) demoWorld).1 =
      .err (.wrap (.wrap .errOpen "decrypt AES256GCM error")
        "Decrypt AES256GCM with nonce error") :=
  ⟨(flipped_bit_outcomes demoCore demoKey [] (ascii "BwcHBwcHBwcHBwcHHB0eHyAhIiMkJSYnKCkqKw==")
      demoWorld demoWorld 0 0 (by decide) (by decide)).1 (by decide),
    (flipped_bit_outcomes demoCore demoKey [] (ascii "BwcHBwcHBwcHBwcHHB0eHyAhIiMkJSYnKCkqKw==")
      demoWorld demoWorld 16 0 (by decide) (by decide)).2.2
      (List.replicate 12 7 ++ [28, 29, 30, 31, 32, 33, 34, 35, 36, 37, 38, 39, 40, 41, 42, 43])
      (List.replicate 12 7 ++ [32, 29, 30, 31, 32, 33, 34, 35, 36, 37, 38, 39, 40, 41, 42, 43])
      (by decide) (by decide) (by decide) (by decide) (by decide)⟩

/-! ## C10: panics -/

theorem EncryptFile_run_big (G : GCMCore) (key d : Bytes) (inp out : String) (w : World)
    (hk : key.length = 32) (hin : w.files.lookup inp = some d) (hr : 12 ≤ w.rand.length)
    (hp : d.length > gcmMaxPlaintext) :
    (encrypt.EncryptFile G key inp out w).1 =
      .panic "crypto/cipher: message too large for GCM" := by
  have hn : w.rand.take 12 ≠ [] := take_ne_nil _ hr
  simp [encrypt.EncryptFile, encrypt.encryptFileAES256GCM, encrypt.encryptFile,
    ↓validate_enc_run, os.ReadFile, encrypt.generateNonce, rand.ReadFull,
    GCM_STANDARD_NONCE_SIZE, wrapErr_apply, bind, Go.bind, pure, Go.pure, hk, hin, hr,
    encrypt_run_big G key _ d hk hn hp]

/-- C10, counterexample. With the sample key, a readable input file of
`gcmMaxPlaintext + 1` bytes and twelve bytes of entropy, `EncryptFile` ends in the
panic of `Seal`, neither a result nor an error. -/
theorem oversize_file_panics :
    (encrypt.EncryptFile demoCore demoKey "big.bin" "out.bin" bigWorld).1 =
      .panic "crypto/cipher: message too large for GCM" ∧
    (encrypt.EncryptFile demoCore demoKey "big.bin" "out.bin" bigWorld).1.isPanic = true := by
  have h := EncryptFile_run_big demoCore demoKey (List.replicate (gcmMaxPlaintext + 1) 0)
    "big.bin" "out.bin" bigWorld demoKey_length rfl (by decide) oversize_length
  exact ⟨h, by rw [h]; rfl⟩

/-- C10, amended. For every key, nonce, input and state, the only run-time
panic an entry point can end in is the one of `Seal` on a plaintext (or input
file) longer than `gcmMaxPlaintext` bytes: the slices of `buildNonce` are
evaluated only when the blob is longer than 12 bytes, and the cipher is always
built for the length of the very nonce passed to `Seal` and `Open`.  The four
decrypt entry points never panic, and the four encrypt entry points return a
result or an error whenever the plaintext is within the limit. -/
theorem panic_only_beyond_limit (G : GCMCore) (key nonce data text : Bytes) (inp out : String)
    (w : World) (msg : String) :
    ((encrypt.Encrypt G key data w).1 = .panic msg →
      msg = "crypto/cipher: message too large for GCM" ∧ gcmMaxPlaintext < data.length) ∧
    ((encrypt.EncryptWithNonce G key nonce data w).1 = .panic msg →
      msg = "crypto/cipher: message too large for GCM" ∧ gcmMaxPlaintext < data.length) ∧
    ((encrypt.EncryptFile G key inp out w).1 = .panic msg →
      msg = "crypto/cipher: message too large for GCM" ∧
        ∃ d, w.files.lookup inp = some d ∧ gcmMaxPlaintext < d.length) ∧
    ((encrypt.EncryptFileWithNonce G key nonce inp out w).1 = .panic msg →
      msg = "crypto/cipher: message too large for GCM" ∧
        ∃ d, w.files.lookup inp = some d ∧ gcmMaxPlaintext < d.length) ∧
    (decrypt.Decrypt G key text w).1 ≠ .panic msg ∧
    (decrypt.DecryptWithNonce G key nonce text w).1 ≠ .panic msg ∧
    (decrypt.DecryptFile G key inp out w).1 ≠ .panic msg ∧
    (decrypt.DecryptFileWithNonce G key nonce inp out w).1 ≠ .panic msg := by
  refine ⟨?_, ?_, ?_, ?_, ?_, ?_, ?_, ?_⟩
  · intro h
    unfold encrypt.Encrypt at h
    rcases bind_panic _ _ w msg h with h1 | ⟨r, w1, _, h2⟩
    · exact encryptAES256GCM_panic G key [] data true w msg h1
    · cases h2
  · intro h
    unfold encrypt.EncryptWithNonce at h
    rcases bind_panic _ _ w msg h with h1 | ⟨r, w1, _, h2⟩
    · exact encryptAES256GCM_panic G key nonce data false w msg (wrapErr_panic _ _ _ _ h1)
    · cases h2
  · intro h
    exact encryptFileAES256GCM_panic G key [] inp out true w msg h
  · intro h
    exact encryptFileAES256GCM_panic G key nonce inp out false w msg (wrapErr_panic _ _ _ _ h)
  · intro h
    unfold decrypt.Decrypt at h
    rcases bind_panic _ _ w msg h with h1 | ⟨blob, w1, _, h2⟩
    · exact ofExcept_no_panic _ w msg (wrapErr_panic _ _ _ _ h1)
    · rcases bind_panic _ _ w1 msg h2 with h3 | ⟨r, w2, _, h4⟩
      · exact decryptAES256GCM_no_panic G key [] blob true w1 msg (wrapErr_panic _ _ _ _ h3)
      · cases h4
  · intro h
    unfold decrypt.DecryptWithNonce at h
    rcases bind_panic _ _ w msg h with h1 | ⟨blob, w1, _, h2⟩
    · exact ofExcept_no_panic _ w msg (wrapErr_panic _ _ _ _ h1)
    · rcases bind_panic _ _ w1 msg h2 with h3 | ⟨r, w2, _, h4⟩
      · exact decryptAES256GCM_no_panic G key nonce blob false w1 msg (wrapErr_panic _ _ _ _ h3)
      · cases h4
  · intro h
    exact decryptFileAES256GCM_no_panic G key [] inp out true w msg (wrapErr_panic _ _ _ _ h)
  · intro h
    exact decryptFileAES256GCM_no_panic G key nonce inp out false w msg (wrapErr_panic _ _ _ _ h)

/-- Witness of C10, amended: the oversize sample file is the one way to the
panic, and its length is over the limit. -/
theorem panic_only_beyond_limit_witness :
    "crypto/cipher: message too large for GCM" = "crypto/cipher: message too large for GCM" ∧
      ∃ d, bigWorld.files.lookup "big.bin" = some d ∧ gcmMaxPlaintext < d.length :=
  (panic_only_beyond_limit demoCore demoKey demoNonce [] [] "big.bin" "out.bin" bigWorld
    "crypto/cipher: message too large for GCM").2.2.1
    (EncryptFile_run_big demoCore demoKey (List.replicate (gcmMaxPlaintext + 1) 0)
      "big.bin" "out.bin" bigWorld demoKey_length rfl (by decide) oversize_length)

end CryptoUtils
